import Mathlib

/-!
# Verification of the `TextInput` widget (pygame-menu)

Shallow embedding of `pygame_menu/widgets/widget/textinput.py`.  The logical
text is a `List Char`; machine integers are `Int`/`Nat` (Python integers are
unbounded, so no wrap-around modelling is needed).  Rendering, sound and
clipboard side effects are dropped; the clipboard content is passed as an
explicit `Option (List Char)` argument (`none` models `PyperclipException`).
Python operations whose exact semantics matter (slicing with negative
indices, `list.insert`, `str.strip`, `str.translate` with a plain string
table, `int()`/`float()` parsing) are given dedicated definitions below.
Numeric *values* of `float()` are modelled exactly over `ℚ` (IEEE-754
rounding and overflow are out of scope); acceptance/rejection of a string by
`int()`/`float()` is modelled syntactically.
-/

namespace TextInput

/-- A renderbox triple: the Python list `self._renderbox = [left, right, inner]`. -/
structure RB where
  l : Int
  r : Int
  i : Int
deriving DecidableEq, Repr

/-- Normalise one Python slice endpoint for a sequence of length `n`:
negative indices count from the end, then the result is clamped to `[0, n]`. -/
def pyNormIdx (n : Nat) (i : Int) : Nat :=
  if i < 0 then ((n : Int) + i).toNat else min i.toNat n

/-- Python slice `s[a:b]` (step 1), with negative-index wrapping and clamping. -/
def pySlice (s : List Char) (a b : Int) : List Char :=
  (s.take (pyNormIdx s.length b)).drop (pyNormIdx s.length a)

/-- Characters for which Python `str.isspace()` is true (the ones `str.strip()`
removes).  Restricted to the Latin-1 range; other Unicode space characters do
not occur in any input considered here. -/
def pyIsSpace (c : Char) : Bool :=
  c = ' ' || c = '\t' || c = '\n' || c = '\x0b' || c = '\x0c' || c = '\r' ||
  c = '\x1c' || c = '\x1d' || c = '\x1e' || c = '\x1f' ||
  c = '\x85' || c = '\xa0'

/-- Python `str.strip()`: drop leading and trailing whitespace. -/
def pyStrip (s : List Char) : List Char :=
  ((s.dropWhile pyIsSpace).reverse.dropWhile pyIsSpace).reverse

/-- Python `list.insert(idx, a)` for a non-negative index: the index is
clamped to the length (Lean's `List.insertNth` would instead ignore an
out-of-range index). -/
def pyInsert (l : List α) (idx : Nat) (a : α) : List α :=
  let i := min idx l.length
  l.take i ++ a :: l.drop i

/-- `text.translate(escapes)` where `escapes = ''.join(chr(c) for c in range(1, 32))`.
In Python 3 a plain string is a valid translation table indexed by code
point: a character `c` with `ord(c) ≤ 30` is replaced by
`escapes[ord(c)] = chr(ord(c) + 1)`, while any larger code point raises
`IndexError` inside the table lookup, which `translate` treats as "keep the
character".  So this call *remaps* the control characters instead of
deleting them. -/
def pyTranslateEscapes (s : List Char) : List Char :=
  s.map (fun c => if c.toNat ≤ 30 then Char.ofNat (c.toNat + 1) else c)

/-! ## Python `int()` / `float()` string parsing -/

/-- After one leading digit: digits possibly separated by single underscores,
as accepted by Python numeric literals (`1_000`). -/
def digitsTail : List Char → Bool
  | [] => true
  | '_' :: c :: rest => c.isDigit && digitsTail rest
  | ['_'] => false
  | c :: rest => c.isDigit && digitsTail rest

/-- A non-empty digit group with optional internal underscores. -/
def digitGroup : List Char → Bool
  | [] => false
  | c :: rest => c.isDigit && digitsTail rest

/-- Strip one optional leading `+`/`-`; also report whether a `-` was seen. -/
def takeSign : List Char → Bool × List Char
  | '+' :: rest => (false, rest)
  | '-' :: rest => (true, rest)
  | s => (false, s)

/-- Python `int(string)` acceptance: optional surrounding whitespace, optional
sign, then a digit group.  (Non-ASCII digits are not modelled.) -/
def pyParsesInt (s : List Char) : Bool :=
  digitGroup (takeSign (pyStrip s)).2

/-- Numeric value of a digit group, ignoring underscores. -/
def digitsVal (s : List Char) : Nat :=
  s.foldl (fun acc c => if c = '_' then acc else acc * 10 + (c.toNat - '0'.toNat)) 0

/-- The number of digits in a digit group: underscores are separators and do
not count (`float("1.5_0")` is `1.50`, the fraction scales by `10^2`). -/
def digitsLen (s : List Char) : Nat :=
  (s.filter (fun c => c != '_')).length

/-- The value domain of Python `float()` on strings, with exact rationals in
place of IEEE doubles. -/
inductive PyNum where
  | rat (q : ℚ)
  | inf (neg : Bool)
  | nan
deriving DecidableEq, Repr

/-- Lower-case a Latin letter (enough for `inf`/`nan` spellings). -/
def lowerAscii (c : Char) : Char :=
  if 'A' ≤ c ∧ c ≤ 'Z' then Char.ofNat (c.toNat + 32) else c

/-- Parse the body (sign already removed) of a Python `float()` literal:
`digits [. digits?] [exp] | . digits [exp] | inf | infinity | nan`,
case-insensitive for the named forms, underscores allowed inside digit
groups.  Returns the exact value scaled as `mantissa / 10^frac * 10^exp`. -/
def pyFloatBody (neg : Bool) (s : List Char) : Option PyNum :=
  let ls := s.map lowerAscii
  if ls = ['i', 'n', 'f'] ∨ ls = ['i', 'n', 'f', 'i', 'n', 'i', 't', 'y'] then
    some (.inf neg)
  else if ls = ['n', 'a', 'n'] then
    some .nan
  else
    -- split at the exponent marker, if any
    let expSplit : Option (List Char × Option (Bool × List Char)) :=
      match s.splitOnP (fun c => c = 'e' ∨ c = 'E') with
      | [m] => some (m, none)
      | [m, e] => some (m, some (takeSign e))
      | _ => none
    match expSplit with
    | none => none
    | some (mant, expPart) =>
      -- the mantissa: digits [. digits?] | . digits | digits.
      let mantOk : Option ℚ :=
        match mant.splitOnP (fun c => c = '.') with
        | [d] => if digitGroup d then some ((digitsVal d : ℚ)) else none
        | [d, f] =>
          if d = [] then
            if digitGroup f then some ((digitsVal f : ℚ) / 10 ^ digitsLen f) else none
          else if f = [] then
            if digitGroup d then some ((digitsVal d : ℚ)) else none
          else
            if digitGroup d ∧ digitGroup f then
              some ((digitsVal d : ℚ) + (digitsVal f : ℚ) / 10 ^ digitsLen f)
            else none
        | _ => none
      match mantOk, expPart with
      | none, _ => none
      | some q, none => some (.rat (if neg then -q else q))
      | some q, some (eneg, edigits) =>
        if digitGroup edigits then
          let e := digitsVal edigits
          let q := if eneg then q / 10 ^ e else q * 10 ^ e
          some (.rat (if neg then -q else q))
        else none

/-- Python `float(string)`: strip whitespace, optional sign, then a float
body.  `none` models `ValueError`. -/
def pyFloatVal (s : List Char) : Option PyNum :=
  let (neg, body) := takeSign (pyStrip s)
  if body = [] then none else pyFloatBody neg body

/-- Python `float(string)` acceptance. -/
def pyParsesFloat (s : List Char) : Bool :=
  (pyFloatVal s).isSome

/-- Truncation toward zero, as Python `int(float)` does for finite floats. -/
def ratTrunc (q : ℚ) : Int :=
  if 0 ≤ q then q.floor else q.ceil

/-! ## Widget state -/

/-- The input type: `pygame_menu.locals.INPUT_TEXT / INPUT_INT / INPUT_FLOAT`. -/
inductive InputType where
  | text
  | int
  | float
deriving DecidableEq, Repr

/-- The mutable state of a `TextInput` widget, restricted to the fields the
text-editing engine reads or writes, together with its (immutable)
configuration.  `charW` models the per-character pixel width delivered by
`_get_char_size` (the `_keychar_size` cache is write-once per character, so a
pure function is an exact model).  `rebalance_fuel` bounds the number of
iterations of the `while True` loop of `_update_maxlimit_renderbox`, whose
termination is not proved here; every theorem about that loop either holds
for all fuel values or exhibits a run that exits the loop by `break` long
before the fuel is exhausted. -/
structure TIState where
  input_string : List Char
  cursor_position : Nat
  renderbox : RB
  maxwidth : Int
  history : List (List Char)
  history_cursor : List Nat
  history_renderbox : List RB
  history_index : Nat
  selection_box : Nat × Nat
  selection_surface : Bool
  selection_active : Bool
  block_copy_paste : Bool
  -- configuration
  maxchar : Nat
  max_history : Nat
  maxwidth_base : Int
  maxwidth_update : Bool
  maxwidthsize : Int
  ellipsis_size : Int
  charW : Char → Int
  valid_chars : Option (List Char)
  input_type : InputType
  password : Bool
  password_char : Char
  rebalance_fuel : Nat

/-- `_get_input_string_filtered`: apply the password mask. -/
def filteredString (st : TIState) : List Char :=
  if st.password then List.replicate st.input_string.length st.password_char
  else st.input_string

/-- `_ellipsis_left`. -/
def ellipsisLeft (st : TIState) : Bool :=
  st.renderbox.l ≠ 0 && st.maxwidth ≠ 0

/-- `_ellipsis_right`. -/
def ellipsisRight (st : TIState) : Bool :=
  st.renderbox.r ≠ (st.input_string.length : Int) && st.maxwidth ≠ 0

/-- `_get_input_string(add_ellipsis=False)`: the visible slice when a width
limit is active and the text overflows, else the whole (filtered) string. -/
def getInputStringNoEll (st : TIState) : List Char :=
  let s := filteredString st
  if st.maxwidth ≠ 0 ∧ (s.length : Int) > st.maxwidth then
    pySlice s st.renderbox.l st.renderbox.r
  else s

/-- One-pass body of the `while True` loop of `_update_maxlimit_renderbox`,
with explicit fuel and the running `sign` of the search. -/
def maxlimitLoop : Nat → Int → TIState → TIState
  | 0, _, st => st
  | fuel + 1, sign, st =>
    let curr := getInputStringNoEll st
    if curr.length > 0 then
      let accum : Int :=
        (if ellipsisLeft st then st.ellipsis_size + 5 else 0) +
          (curr.map st.charW).sum +
          (if ellipsisRight st then st.ellipsis_size else 0)
      let biggest : Int := (curr.map st.charW).foldl max 0
      if accum < st.maxwidthsize - biggest then
        -- increase branch
        if sign < 0 then st
        else if st.renderbox.l ≠ 0 then
          maxlimitLoop fuel 1
            { st with
              renderbox := ⟨st.renderbox.l - 1, st.renderbox.r, st.renderbox.i + 1⟩,
              maxwidth := st.maxwidth + 1 }
        else st
      else if accum > st.maxwidthsize then
        -- decrease branch
        if sign > 0 then st
        else
          let rb :=
            if st.renderbox.i = 0 then
              RB.mk st.renderbox.l (st.renderbox.r - 1) st.renderbox.i
            else
              RB.mk (st.renderbox.l + 1) st.renderbox.r (st.renderbox.i - 1)
          maxlimitLoop fuel (-1) { st with renderbox := rb, maxwidth := st.maxwidth - 1 }
      else st
    else
      { st with maxwidth := st.maxwidth_base }

/-- `_update_maxlimit_renderbox`. -/
def updateMaxlimit (st : TIState) : TIState :=
  if ¬ st.maxwidth_update then st
  else maxlimitLoop st.rebalance_fuel 0 st

/-- The pure part of `_update_renderbox`: given the current state it returns
the new `_renderbox` value and whether `_update_maxlimit_renderbox` is to be
run afterwards.  (The early `return`s of the Python code keep the old
renderbox and skip the rebalance, as do the `end`/`start` branches and the
branches that assign `update_maxwidth = False`.) -/
def renderboxStep (st : TIState) (left right : Int)
    (addition endF startF update_maxwidth : Bool) : RB × Bool :=
  let ls : Int := st.input_string.length
  if endF then (⟨max 0 (ls - st.maxwidth), ls, min ls st.maxwidth⟩, false)
  else if startF then (⟨0, min ls st.maxwidth, 0⟩, false)
  else if left < 0 ∧ ls = 0 then (st.renderbox, false)
  else if ls ≤ st.maxwidth then
    -- no overflow
    let rb := st.renderbox
    if right < 0 ∧ rb.i = ls then (st.renderbox, false)
    else if left < 0 ∧ rb.i = 0 then (st.renderbox, false)
    else
      let rb := RB.mk 0 rb.r rb.i
      let rb :=
        if addition then
          let rb := if left < 0 then RB.mk rb.l (rb.r + left) rb.i else rb
          let rb := RB.mk rb.l (rb.r + right) rb.i
          if right < 0 then RB.mk rb.l rb.r (rb.i - right) else rb
        else rb
      let rb := RB.mk rb.l rb.r (rb.i + left + right)
      (RB.mk (max 0 rb.l) (min (max 0 rb.r) ls)
        (max 0 (min rb.i (min st.maxwidth ls))), update_maxwidth)
  else if addition then
    -- overflow, text added/removed
    let rb := st.renderbox
    if right < 0 ∧ rb.i = st.maxwidth then (st.renderbox, false)
    else if left < 0 ∧ rb.i = 0 then (st.renderbox, false)
    else
      let rb :=
        if right < 0 ∧ (rb.l ≠ 0 ∧ st.maxwidth ≠ 0) ∧ rb.r - 1 = ls then
          RB.mk rb.l rb.r (rb.i - right)
        else rb
      let rb :=
        if right > 0 then
          let rb := if rb.i = st.maxwidth then RB.mk (rb.l + right) (rb.r + right) rb.i else rb
          RB.mk rb.l rb.r (rb.i + right)
        else rb
      let rb :=
        if left < 0 then
          let rb := if rb.l = 0 then RB.mk rb.l rb.r (rb.i + left) else rb
          RB.mk (rb.l + left) (rb.r + left) rb.i
        else rb
      let r' := max st.maxwidth (min rb.r ls)
      let rb := RB.mk (r' - st.maxwidth) r' rb.i
      (RB.mk (max 0 rb.l) (min (max 0 rb.r) ls)
        (max 0 (min rb.i (min st.maxwidth ls))), update_maxwidth)
  else
    -- overflow, pure navigation
    let rb := st.renderbox
    let rb := RB.mk rb.l rb.r (rb.i + right + left)
    let um :=
      if rb.i < 0 then update_maxwidth
      else if rb.i > st.maxwidth then update_maxwidth
      else false
    let rb :=
      if rb.i < 0 then RB.mk (rb.l + left) (rb.r + left) rb.i
      else if rb.i > st.maxwidth then RB.mk (rb.l + right) (rb.r + right) rb.i
      else rb
    let um := if (rb.r > ls ∨ rb.l < 0) ∧ rb.i ≠ st.maxwidth - 1 then false else um
    let r' := max st.maxwidth (min rb.r ls)
    let rb := RB.mk (r' - st.maxwidth) r' rb.i
    (RB.mk (max 0 rb.l) (min (max 0 rb.r) ls)
      (max 0 (min rb.i (min st.maxwidth ls))), um)

/-- `_update_renderbox(left, right, addition, end, start, update_maxwidth)`.
The `_cursor_render` flag is not modelled (pure rendering). -/
def updateRenderbox (st : TIState) (left right : Int)
    (addition endF startF update_maxwidth : Bool) : TIState :=
  if st.maxwidth = 0 then st
  else
    let p := renderboxStep st left right addition endF startF update_maxwidth
    let st := { st with renderbox := p.1 }
    if p.2 then updateMaxlimit st else st

/-- `_move_cursor_left`. -/
def moveCursorLeft (st : TIState) : TIState :=
  let st := { st with cursor_position := st.cursor_position - 1 }
  updateRenderbox st (-1) 0 false false false true

/-- `_move_cursor_right`. -/
def moveCursorRight (st : TIState) : TIState :=
  let st := { st with cursor_position := min (st.cursor_position + 1) st.input_string.length }
  updateRenderbox st 0 1 false false false true

/-! ## Edit history -/

/-- The guard of `_update_input_string` deciding whether a new snapshot is
committed: the history is empty or its last entry differs from the new
string, and the history capacity is positive. -/
def commitCond (st : TIState) (new : List Char) : Bool :=
  (decide (st.history ≠ []) && decide (st.history.getLast? ≠ some new)
    || st.history.isEmpty) && decide (st.max_history > 0)

/-- Lines 1176–1185 of `_update_input_string`: insert the snapshot at
`_history_index` into the three parallel lists, evict the oldest entry when
over capacity, and move the index to the tip. -/
def historyAppend (st : TIState) (new : List Char) : TIState :=
  let h := pyInsert st.history st.history_index new
  let hc := pyInsert st.history_cursor st.history_index st.cursor_position
  let hr := pyInsert st.history_renderbox st.history_index st.renderbox
  let p := h.length > st.max_history
  let h := if p then h.drop 1 else h
  let hc := if p then hc.drop 1 else hc
  let hr := if p then hr.drop 1 else hr
  { st with history := h, history_cursor := hc, history_renderbox := hr,
            history_index := h.length }

/-- Lines 1170–1173 of `_update_input_string`: when the index is not at the
tip, replay the pre-undo state as a fresh edit (the recursive call of the
Python code, which immediately takes the non-branching path because the
index was just moved to the tip, is inlined). -/
def uisBranch (st : TIState) : TIState :=
  if st.history_index ≠ st.history.length then
    let last_string := st.history.getD st.history_index []
    let st1 := { st with history_index := st.history.length }
    let st2 := if commitCond st1 last_string then historyAppend st1 last_string else st1
    { st2 with input_string := last_string }
  else st

/-- `_update_input_string(new_string, update_history)`. -/
def updateInputString (st : TIState) (new : List Char) (update_history : Bool) : TIState :=
  if update_history && commitCond st new then
    { historyAppend (uisBranch st) new with input_string := new }
  else
    { st with input_string := new }

/-- `_update_from_history`.  The `getD` defaults are never used: the callers
only read indices `< len(history)` (see the history invariants below). -/
def updateFromHistory (st : TIState) : TIState :=
  { st with
    input_string := st.history.getD st.history_index [],
    renderbox := st.history_renderbox.getD st.history_index ⟨0, 0, 0⟩,
    cursor_position := st.history_cursor.getD st.history_index 0 }

/-- `_undo`. -/
def undoOp (st : TIState) : TIState × Bool :=
  if st.history_index = 0 then (st, false)
  else
    let idx := if st.history_index = st.history.length then st.history_index - 1
               else st.history_index
    let idx := idx - 1  -- Python max(0, idx - 1) = Nat truncated subtraction
    (updateFromHistory { st with history_index := idx }, true)

/-- `_redo`.  On an empty history Python assigns `_history_index = -1` and
then `self._history[-1]` raises an uncaught `IndexError`; this exceptional
run is modelled as `none`. -/
def redoOp (st : TIState) : Option (TIState × Bool) :=
  if st.history.length = 0 then none
  else if st.history_index + 1 = st.history.length then some (st, false)
  else
    let idx := min (st.history.length - 1) (st.history_index + 1)
    some (updateFromHistory { st with history_index := idx }, true)

/-! ## Selection model -/

/-- `_unselect_text` (surface bookkeeping reduced to the `selection_surface`
flag). -/
def unselectText (st : TIState) : TIState :=
  if ¬ st.selection_surface then st
  else { st with selection_box := (0, 0), selection_surface := false,
                 selection_active := false }

/-- `_backspace(update_history)`. -/
def backspaceOp (st : TIState) (uh : Bool) : TIState :=
  let new := st.input_string.take (st.cursor_position - 1) ++
    st.input_string.drop st.cursor_position
  let st := updateInputString st new uh
  let st := updateRenderbox st (-1) 0 true false false true
  { st with cursor_position := st.cursor_position - 1 }

/-- `_delete(update_history)`. -/
def deleteOp (st : TIState) (uh : Bool) : TIState :=
  let new := st.input_string.take st.cursor_position ++
    st.input_string.drop (st.cursor_position + 1)
  let st := updateInputString st new uh
  updateRenderbox st 0 (-1) true false false true

/-- `_remove_selection`: peel the selected range off character by character,
from the end that does not hold the cursor, committing history only on the
final removal. -/
def removeSelection (st : TIState) : TIState :=
  let removed := st.selection_box.2 - st.selection_box.1
  let left := st.selection_box.1 = st.cursor_position
  let st := (List.range removed).foldl
    (fun s i =>
      if left then deleteOp s (i = removed - 1) else backspaceOp s (i = removed - 1)) st
  unselectText st

/-! ## Edit operations -/

/-- `_check_input_size`. -/
def checkInputSize (st : TIState) : Bool :=
  if st.maxchar = 0 then false
  else decide (st.maxchar ≤ st.input_string.length)

/-- `_check_input_type(string)`.  Note the `"-"` shortcut fires for every
input type. -/
def checkInputType (st : TIState) (s : List Char) : Bool :=
  if s = [] then true
  else if st.input_type = .text then true
  else if s = ['-'] then true
  else
    match st.input_type with
    | .text => true
    | .int => pyParsesInt s
    | .float => pyParsesFloat s

/-- `_push_key_input(keychar)` for a single-character key.  The escape-
sequence test `'\\r' in repr(keychar)` is, for single characters, exactly
`keychar = '\r'`.  Sounds are dropped. -/
def pushKeyInput (st : TIState) (keychar : Char) : TIState × Bool :=
  let st := if st.selection_surface then removeSelection st else st
  if checkInputSize st then (st, false)
  else
    let new := st.input_string.take st.cursor_position ++ keychar ::
      st.input_string.drop st.cursor_position
    if keychar = '\r' then (st, false)
    else if (match st.valid_chars with
             | some vc => ! vc.contains keychar
             | none => false) then (st, false)
    else if checkInputType st new then
      let st := { st with cursor_position := st.cursor_position + 1, input_string := new }
      let st := updateInputString st new true
      let st := updateRenderbox st 0 1 true false false true
      (st, true)
    else (st, false)

/-- `_copy`: clipboard effects dropped; only the `_block_copy_paste` latch
matters for later state. -/
def copyOp (st : TIState) : TIState × Bool :=
  if st.block_copy_paste then (st, false)
  else if st.password then (st, false)
  else ({ st with block_copy_paste := true }, true)

/-- `_cut`. -/
def cutOp (st : TIState) : TIState × Bool :=
  let st := (copyOp st).1
  if st.selection_surface then (removeSelection st, true)
  else
    let st := { st with cursor_position := 0, renderbox := ⟨0, 0, 0⟩ }
    let st := updateInputString st [] true
    (st, false)

/-- The clipboard filtering pipeline of `_paste` (strip, drop `\n`/`\r`,
`translate` with the plain-string table). -/
def pasteFilter (text : List Char) : List Char :=
  let text := pyStrip text
  let text := text.filter (fun c => c ≠ '\n' && c ≠ '\r')
  pyTranslateEscapes text

/-- Lines 1284–1315 of `_paste`: truncate the (already filtered) clipboard
text to the remaining capacity, splice it at the cursor and commit. -/
def pasteInsert (st : TIState) (text : List Char) : TIState × Bool :=
  let text_end : Int := text.length
  let text_end :=
    if st.maxchar ≠ 0 then
      min ((st.maxchar : Int) - st.input_string.length) text_end
    else text_end
  if st.maxchar ≠ 0 ∧ text_end ≤ 0 then (st, false)
  else
    let new := st.input_string.take st.cursor_position ++
      pySlice text 0 text_end ++ st.input_string.drop st.cursor_position
    if checkInputType st new then
      let st1 := { st with input_string := new }
      let st2 := (List.range text.length).foldl (fun s _ => moveCursorRight s) st1
      let st3 := updateInputString st2 new true
      let st4 := updateMaxlimit st3
      ({ st4 with block_copy_paste := true }, true)
    else (st, false)

/-- `_paste`, with the clipboard passed explicitly: `none` models a
`PyperclipException` raised by `paste()`. -/
def pasteOp (st : TIState) (clip : Option (List Char)) : TIState × Bool :=
  if st.block_copy_paste then (st, false)
  else
    let st := if st.selection_surface then removeSelection st else st
    match clip with
    | none => (st, false)
    | some text =>
      let text := pasteFilter text
      if text = [] then (st, false)
      else
        match st.valid_chars with
        | some vc =>
          let t := text.filter (fun c => vc.contains c)
          if t = [] then (st, false) else pasteInsert st t
        | none => pasteInsert st text

/-- `set_value(text)` for a string argument; `none` models the two
`ValueError` raises (password mode with non-empty text, or failed type
check). -/
def setValueOp (st : TIState) (text : List Char) : Option TIState :=
  if st.password ∧ text ≠ [] then none
  else if checkInputType st text then
    let dt := match st.valid_chars with
      | some vc => text.filter (fun c => vc.contains c)
      | none => text
    let dt := if 0 < st.maxchar ∧ st.maxchar < dt.length then
        dt.drop (dt.length - st.maxchar)
      else dt
    let st := { st with input_string := dt }
    let st := (List.range (dt.length + 1)).foldl
      (fun s _ =>
        let s := moveCursorRight s
        updateRenderbox s 0 1 true false false true) st
    let st := updateInputString st dt true
    some (updateRenderbox st 0 0 false false false true)
  else none

/-- The value returned by `get_value`. -/
inductive Value where
  | str (s : List Char)
  | num (n : PyNum)
  | intv (n : Int)
deriving DecidableEq, Repr

/-- `get_value`.  Python returns the plain `int` `0` when the numeric
conversion raises `ValueError`.  For `INPUT_INT` on a parsed infinity,
`int(float(s))` raises an *uncaught* `OverflowError`, modelled as `none`
(such a stored string never passes `_check_input_type` for the int type, so
the case is unreachable in a type-consistent widget). -/
def getValue (st : TIState) : Option Value :=
  match st.input_type with
  | .text => some (.str st.input_string)
  | .float =>
    match pyFloatVal st.input_string with
    | none => some (.intv 0)
    | some v => some (.num v)
  | .int =>
    match pyFloatVal st.input_string with
    | none => some (.intv 0)
    | some (.rat q) => some (.intv (ratTrunc q))
    | some .nan => some (.intv 0)
    | some (.inf _) => none

/-! ## Operation alphabet and reachability -/

/-- The text-mutating operations of §4.4 of the spec, as dispatched by
`update`. -/
inductive EditOp where
  | push (c : Char)
  | backspace
  | delete
  | paste (clip : Option (List Char))
  | setValue (s : List Char)
  | undo
  | redo
  | cut

/-- Apply one edit operation; `none` when the Python code raises
(`set_value` on an invalid value, `_redo` on an empty history). -/
def applyOp (st : TIState) : EditOp → Option TIState
  | .push c => some (pushKeyInput st c).1
  | .backspace => some (backspaceOp st true)
  | .delete => some (deleteOp st true)
  | .paste clip => some (pasteOp st clip).1
  | .setValue s => setValueOp st s
  | .undo => some (undoOp st).1
  | .redo => (redoOp st).map (·.1)
  | .cut => some (cutOp st).1

/-- Apply a sequence of edit operations. -/
def applyOps (st : TIState) : List EditOp → Option TIState
  | [] => some st
  | op :: ops => (applyOp st op).bind (applyOps · ops)

/-- The widget state right after `__init__` (empty text, empty history,
renderbox `[0,0,0]`), for a given configuration. -/
def initState (maxchar max_history : Nat) (maxwidth : Int) (mwUpdate : Bool)
    (mwSize ellSize : Int) (cw : Char → Int) (vc : Option (List Char))
    (ty : InputType) (pw : Bool) (pwc : Char) (fuel : Nat) : TIState where
  input_string := []
  cursor_position := 0
  renderbox := ⟨0, 0, 0⟩
  maxwidth := maxwidth
  history := []
  history_cursor := []
  history_renderbox := []
  history_index := 0
  selection_box := (0, 0)
  selection_surface := false
  selection_active := false
  block_copy_paste := false
  maxchar := maxchar
  max_history := max_history
  maxwidth_base := maxwidth
  maxwidth_update := mwUpdate
  maxwidthsize := mwSize
  ellipsis_size := ellSize
  charW := cw
  valid_chars := vc
  input_type := ty
  password := pw
  password_char := pwc
  rebalance_fuel := fuel

/-- States reachable from a given state by completed edit operations. -/
inductive ReachableFrom (s0 : TIState) : TIState → Prop where
  | refl : ReachableFrom s0 s0
  | step {st st' : TIState} (op : EditOp) :
      ReachableFrom s0 st → applyOp st op = some st' → ReachableFrom s0 st'

/-! ## Frame lemmas

`_update_renderbox` and `_update_maxlimit_renderbox` only write `_renderbox`
and `_maxwidth`; the cursor moves additionally write `_cursor_position`.
This is captured by erasing those fields and showing the rest is fixed. -/

/-- Blank out the two viewport fields. -/
def eraseRender (st : TIState) : TIState :=
  { st with renderbox := ⟨0, 0, 0⟩, maxwidth := 0 }

/-- Blank out the viewport fields and the cursor. -/
def eraseRC (st : TIState) : TIState :=
  { st with renderbox := ⟨0, 0, 0⟩, maxwidth := 0, cursor_position := 0 }

theorem maxlimitLoop_erase (fuel : Nat) :
    ∀ (sign : Int) (st : TIState), eraseRender (maxlimitLoop fuel sign st) = eraseRender st := by
  induction fuel with
  | zero => intro sign st; rfl
  | succ n ih =>
    intro sign st
    unfold maxlimitLoop
    dsimp only
    split_ifs <;> (try rw [ih]) <;> rfl

theorem updateMaxlimit_erase (st : TIState) :
    eraseRender (updateMaxlimit st) = eraseRender st := by
  unfold updateMaxlimit
  split_ifs <;> first | rfl | exact maxlimitLoop_erase _ _ _

theorem updateRenderbox_erase (st : TIState) (left right : Int)
    (a e s u : Bool) :
    eraseRender (updateRenderbox st left right a e s u) = eraseRender st := by
  unfold updateRenderbox
  dsimp only
  split_ifs <;> first | rfl | exact updateMaxlimit_erase _

theorem eraseRC_of_eraseRender {a b : TIState} (h : eraseRender a = eraseRender b) :
    eraseRC a = eraseRC b := by
  have h2 : eraseRC (eraseRender a) = eraseRC (eraseRender b) := by rw [h]
  exact h2

theorem moveCursorRight_erase (st : TIState) :
    eraseRC (moveCursorRight st) = eraseRC st := by
  have h := eraseRC_of_eraseRender (updateRenderbox_erase
    { st with cursor_position := min (st.cursor_position + 1) st.input_string.length }
    0 1 false false false true)
  exact h

theorem moveCursorLeft_erase (st : TIState) :
    eraseRC (moveCursorLeft st) = eraseRC st := by
  have h := eraseRC_of_eraseRender (updateRenderbox_erase
    { st with cursor_position := st.cursor_position - 1 } (-1) 0 false false false true)
  exact h

/-- Unpack the fields shared by `eraseRC`-equal states. -/
theorem eraseRC_fields {a b : TIState} (h : eraseRC a = eraseRC b) :
    a.input_string = b.input_string ∧ a.history = b.history ∧
    a.history_cursor = b.history_cursor ∧ a.history_renderbox = b.history_renderbox ∧
    a.history_index = b.history_index ∧ a.selection_box = b.selection_box ∧
    a.selection_surface = b.selection_surface ∧ a.maxchar = b.maxchar ∧
    a.max_history = b.max_history := by
  refine ⟨?_, ?_, ?_, ?_, ?_, ?_, ?_, ?_, ?_⟩ <;>
    first
    | (have h2 := congrArg TIState.input_string h; exact h2)
    | (have h2 := congrArg TIState.history h; exact h2)
    | (have h2 := congrArg TIState.history_cursor h; exact h2)
    | (have h2 := congrArg TIState.history_renderbox h; exact h2)
    | (have h2 := congrArg TIState.history_index h; exact h2)
    | (have h2 := congrArg TIState.selection_box h; exact h2)
    | (have h2 := congrArg TIState.selection_surface h; exact h2)
    | (have h2 := congrArg TIState.maxchar h; exact h2)
    | (have h2 := congrArg TIState.max_history h; exact h2)

theorem eraseRC_of_updateRenderbox (st : TIState) (left right : Int) (a e s u : Bool) :
    eraseRC (updateRenderbox st left right a e s u) = eraseRC st :=
  eraseRC_of_eraseRender (updateRenderbox_erase st left right a e s u)

theorem eraseRC_of_updateMaxlimit (st : TIState) :
    eraseRC (updateMaxlimit st) = eraseRC st :=
  eraseRC_of_eraseRender (updateMaxlimit_erase st)

/-- The cursor is also untouched by `_update_renderbox`. -/
theorem updateRenderbox_cursor (st : TIState) (left right : Int) (a e s u : Bool) :
    (updateRenderbox st left right a e s u).cursor_position = st.cursor_position := by
  have h2 := congrArg TIState.cursor_position (updateRenderbox_erase st left right a e s u)
  exact h2

theorem updateMaxlimit_cursor (st : TIState) :
    (updateMaxlimit st).cursor_position = st.cursor_position := by
  have h2 := congrArg TIState.cursor_position (updateMaxlimit_erase st)
  exact h2

/-! ## List helper lemmas -/

theorem pyInsert_length (l : List α) (i : Nat) (a : α) :
    (pyInsert l i a).length = l.length + 1 := by
  have : min i l.length ≤ l.length := Nat.min_le_right _ _
  simp [pyInsert, List.length_take, List.length_drop]
  omega

theorem pyInsert_mem {l : List α} {i : Nat} {a x : α} (h : x ∈ pyInsert l i a) :
    x ∈ l ∨ x = a := by
  simp only [pyInsert, List.mem_append, List.mem_cons] at h
  rcases h with h | h | h
  · exact Or.inl (List.take_subset _ _ h)
  · exact Or.inr h
  · exact Or.inl (List.drop_subset _ _ h)

theorem pyInsert_at_len (l : List α) (a : α) : pyInsert l l.length a = l ++ [a] := by
  simp [pyInsert]

theorem drop_one_subset (l : List α) : l.drop 1 ⊆ l := List.drop_subset _ _

theorem getD_mem_or_default (l : List α) (n : Nat) (d : α) :
    l.getD n d ∈ l ∨ l.getD n d = d := by
  induction l generalizing n with
  | nil => right; simp
  | cons a t ih =>
    cases n with
    | zero => left; simp
    | succ m =>
      rcases ih m with h | h
      · left; simp only [List.getD_cons_succ]; exact List.mem_cons_of_mem _ h
      · right; simpa using h

/-- Generic preservation through a `foldl`. -/
theorem foldl_pres {β : Type} {P : TIState → Prop} {f : TIState → β → TIState}
    (hf : ∀ st b, P st → P (f st b)) :
    ∀ (l : List β) (st : TIState), P st → P (l.foldl f st) := by
  intro l
  induction l with
  | nil => intro st h; exact h
  | cons b t ih => intro st h; exact ih _ (hf st b h)

/-! ## The history-shape invariant (claim C10) -/

/-- The three history lists stay in sync, are bounded by the configured
depth, and the write index stays within `[0, len]`. -/
def histInv (st : TIState) : Prop :=
  st.history_cursor.length = st.history.length ∧
  st.history_renderbox.length = st.history.length ∧
  st.history.length ≤ st.max_history ∧
  st.history_index ≤ st.history.length

/-- The max-character invariant: the text and every history snapshot respect
a positive `_maxchar` (claim C3). -/
def maxcharInv (st : TIState) : Prop :=
  0 < st.maxchar →
    st.input_string.length ≤ st.maxchar ∧ ∀ x ∈ st.history, x.length ≤ st.maxchar

theorem histInv_congr {a b : TIState} (h : eraseRC a = eraseRC b) :
    histInv a ↔ histInv b := by
  obtain ⟨_, h2, h3, h4, h5, _, _, _, h9⟩ := eraseRC_fields h
  unfold histInv
  rw [h2, h3, h4, h5, h9]

theorem maxcharInv_congr {a b : TIState} (h : eraseRC a = eraseRC b) :
    maxcharInv a ↔ maxcharInv b := by
  obtain ⟨h1, h2, _, _, _, _, _, h8, _⟩ := eraseRC_fields h
  unfold maxcharInv
  rw [h1, h2, h8]

theorem historyAppend_histInv (st : TIState) (new : List Char) (h : histInv st) :
    histInv (historyAppend st new) := by
  obtain ⟨h1, h2, h3, h4⟩ := h
  have hl := pyInsert_length st.history st.history_index new
  have hlc := pyInsert_length st.history_cursor st.history_index st.cursor_position
  have hlr := pyInsert_length st.history_renderbox st.history_index st.renderbox
  unfold historyAppend histInv
  dsimp only
  split_ifs with hp <;>
    refine ⟨?_, ?_, ?_, ?_⟩ <;>
    simp only [List.length_drop, hl, hlc, hlr, le_refl] <;>
    omega

theorem historyAppend_index (st : TIState) (new : List Char) :
    (historyAppend st new).history_index = (historyAppend st new).history.length := rfl

theorem historyAppend_maxcharInv (st : TIState) (new : List Char) (h : maxcharInv st)
    (hlen : 0 < st.maxchar → new.length ≤ st.maxchar) :
    maxcharInv (historyAppend st new) := by
  intro hm
  obtain ⟨hs, hh⟩ := h hm
  refine ⟨hs, ?_⟩
  intro x hx
  unfold historyAppend at hx
  dsimp only at hx
  split_ifs at hx with hp
  · rcases pyInsert_mem (drop_one_subset _ hx) with h' | h'
    · exact hh x h'
    · exact h' ▸ hlen hm
  · rcases pyInsert_mem hx with h' | h'
    · exact hh x h'
    · exact h' ▸ hlen hm

theorem uis_input_string (st : TIState) (new : List Char) (uh : Bool) :
    (updateInputString st new uh).input_string = new := by
  unfold updateInputString
  split_ifs <;> rfl

theorem uisBranch_history (st : TIState) :
    (uisBranch st).history = st.history ∨
      (uisBranch st).history = (historyAppend { st with history_index := st.history.length }
        (st.history.getD st.history_index [])).history := by
  unfold uisBranch
  dsimp only
  split_ifs with h1 h2
  · right; rfl
  · left; rfl
  · left; rfl

theorem uisBranch_histInv (st : TIState) (h : histInv st) : histInv (uisBranch st) := by
  have h1 : histInv { st with history_index := st.history.length } := by
    obtain ⟨a, b, c, _⟩ := h
    exact ⟨a, b, c, le_refl _⟩
  unfold uisBranch
  dsimp only
  split_ifs with hne hcc
  · exact historyAppend_histInv _ _ h1
  · exact h1
  · exact h

theorem uisBranch_maxcharInv (st : TIState) (h : maxcharInv st) :
    maxcharInv (uisBranch st) := by
  have hlast : 0 < st.maxchar → (st.history.getD st.history_index []).length ≤ st.maxchar := by
    intro hm
    rcases getD_mem_or_default st.history st.history_index [] with h' | h'
    · exact (h hm).2 _ h'
    · rw [h']; exact Nat.zero_le _
  unfold uisBranch
  dsimp only
  split_ifs with hne hcc
  · intro hm
    have h2 := historyAppend_maxcharInv { st with history_index := st.history.length }
      (st.history.getD st.history_index []) h hlast
    exact ⟨hlast hm, (h2 hm).2⟩
  · intro hm
    exact ⟨hlast hm, (h hm).2⟩
  · exact h

theorem uisBranch_maxchar (st : TIState) : (uisBranch st).maxchar = st.maxchar := by
  unfold uisBranch
  dsimp only
  split_ifs <;> rfl

theorem uis_histInv (st : TIState) (new : List Char) (uh : Bool) (h : histInv st) :
    histInv (updateInputString st new uh) := by
  unfold updateInputString
  split_ifs with hcc
  · exact historyAppend_histInv _ new (uisBranch_histInv st h)
  · exact h

theorem maxcharInv_set_input {a : TIState} {x : List Char} (h : maxcharInv a)
    (hx : 0 < a.maxchar → x.length ≤ a.maxchar) :
    maxcharInv { a with input_string := x } := by
  intro hm
  exact ⟨hx hm, (h hm).2⟩

theorem uis_maxcharInv (st : TIState) (new : List Char) (uh : Bool) (h : maxcharInv st)
    (hlen : 0 < st.maxchar → new.length ≤ st.maxchar) :
    maxcharInv (updateInputString st new uh) := by
  unfold updateInputString
  split_ifs with hcc
  · have hlen' : 0 < (uisBranch st).maxchar → new.length ≤ (uisBranch st).maxchar := by
      rw [uisBranch_maxchar]; exact hlen
    have h4 := historyAppend_maxcharInv (uisBranch st) new (uisBranch_maxcharInv st h) hlen'
    exact maxcharInv_set_input h4 hlen'
  · exact maxcharInv_set_input h hlen

/-- Any committing `_update_input_string` leaves `_history_index` one past
the last snapshot. -/
theorem uis_commit_index (st : TIState) (new : List Char)
    (hcc : commitCond st new = true) :
    (updateInputString st new true).history_index =
      (updateInputString st new true).history.length := by
  unfold updateInputString
  rw [if_pos (by simp [hcc])]
  rfl

/-! ## Per-operation invariant preservation -/

theorem length_backspace_new (l : List Char) (c : Nat) :
    (l.take (c - 1) ++ l.drop c).length ≤ l.length := by
  simp [List.length_take, List.length_drop]
  omega

theorem length_delete_new (l : List Char) (c : Nat) :
    (l.take c ++ l.drop (c + 1)).length ≤ l.length := by
  simp [List.length_take, List.length_drop]
  omega

theorem length_insert_new (l : List Char) (ch : Char) (c : Nat) :
    (l.take c ++ ch :: l.drop c).length = l.length + 1 := by
  simp [List.length_take, List.length_drop]
  omega

theorem foldl_eraseRC {β : Type} {f : TIState → β → TIState}
    (hf : ∀ s b, eraseRC (f s b) = eraseRC s) (l : List β) (st : TIState) :
    eraseRC (l.foldl f st) = eraseRC st :=
  foldl_pres (P := fun s => eraseRC s = eraseRC st)
    (fun s b hP => (hf s b).trans hP) l st rfl

theorem backspace_histInv (st : TIState) (uh : Bool) (h : histInv st) :
    histInv (backspaceOp st uh) := by
  unfold backspaceOp
  dsimp only
  have h1 := uis_histInv st
    (st.input_string.take (st.cursor_position - 1) ++ st.input_string.drop st.cursor_position)
    uh h
  have h2 := (histInv_congr (eraseRC_of_updateRenderbox _ (-1) 0 true false false true)).mpr h1
  exact h2

theorem backspace_maxcharInv (st : TIState) (uh : Bool) (h : maxcharInv st) :
    maxcharInv (backspaceOp st uh) := by
  unfold backspaceOp
  dsimp only
  have h1 := uis_maxcharInv st
    (st.input_string.take (st.cursor_position - 1) ++ st.input_string.drop st.cursor_position)
    uh h (fun hm => le_trans (length_backspace_new _ _) (h hm).1)
  have h2 := (maxcharInv_congr (eraseRC_of_updateRenderbox _ (-1) 0 true false false true)).mpr h1
  exact h2

theorem delete_histInv (st : TIState) (uh : Bool) (h : histInv st) :
    histInv (deleteOp st uh) := by
  unfold deleteOp
  dsimp only
  have h1 := uis_histInv st
    (st.input_string.take st.cursor_position ++ st.input_string.drop (st.cursor_position + 1))
    uh h
  exact (histInv_congr (eraseRC_of_updateRenderbox _ 0 (-1) true false false true)).mpr h1

theorem delete_maxcharInv (st : TIState) (uh : Bool) (h : maxcharInv st) :
    maxcharInv (deleteOp st uh) := by
  unfold deleteOp
  dsimp only
  have h1 := uis_maxcharInv st
    (st.input_string.take st.cursor_position ++ st.input_string.drop (st.cursor_position + 1))
    uh h (fun hm => le_trans (length_delete_new _ _) (h hm).1)
  exact (maxcharInv_congr (eraseRC_of_updateRenderbox _ 0 (-1) true false false true)).mpr h1

theorem unselect_histInv (st : TIState) (h : histInv st) : histInv (unselectText st) := by
  unfold unselectText
  split_ifs <;> exact h

theorem unselect_maxcharInv (st : TIState) (h : maxcharInv st) :
    maxcharInv (unselectText st) := by
  unfold unselectText
  split_ifs <;> exact h

theorem removeSelection_histInv (st : TIState) (h : histInv st) :
    histInv (removeSelection st) := by
  unfold removeSelection
  dsimp only
  apply unselect_histInv
  apply foldl_pres (P := histInv) _ _ _ h
  intro s b hP
  split_ifs
  · exact delete_histInv s _ hP
  · exact backspace_histInv s _ hP

theorem removeSelection_maxcharInv (st : TIState) (h : maxcharInv st) :
    maxcharInv (removeSelection st) := by
  unfold removeSelection
  dsimp only
  apply unselect_maxcharInv
  apply foldl_pres (P := maxcharInv) _ _ _ h
  intro s b hP
  split_ifs
  · exact delete_maxcharInv s _ hP
  · exact backspace_maxcharInv s _ hP

theorem updateFromHistory_histInv (st : TIState) (h : histInv st) :
    histInv (updateFromHistory st) := h

theorem updateFromHistory_maxcharInv (st : TIState) (h : maxcharInv st) :
    maxcharInv (updateFromHistory st) := by
  intro hm
  refine ⟨?_, (h hm).2⟩
  rcases getD_mem_or_default st.history st.history_index [] with h' | h'
  · exact (h hm).2 _ h'
  · show (st.history.getD st.history_index []).length ≤ st.maxchar
    rw [h']
    exact Nat.zero_le _

theorem undo_histInv (st : TIState) (h : histInv st) : histInv (undoOp st).1 := by
  obtain ⟨a, b, c, d⟩ := h
  unfold undoOp
  dsimp only
  split_ifs with h0 h1
  · exact ⟨a, b, c, d⟩
  · exact ⟨a, b, c, show st.history_index - 1 - 1 ≤ st.history.length by omega⟩
  · exact ⟨a, b, c, show st.history_index - 1 ≤ st.history.length by omega⟩

theorem undo_maxcharInv (st : TIState) (h : maxcharInv st) : maxcharInv (undoOp st).1 := by
  unfold undoOp
  dsimp only
  split_ifs with h0 h1
  · exact h
  · exact updateFromHistory_maxcharInv _ h
  · exact updateFromHistory_maxcharInv _ h

theorem redo_histInv (st st' : TIState) (b : Bool) (hr : redoOp st = some (st', b))
    (h : histInv st) : histInv st' := by
  unfold redoOp at hr
  split_ifs at hr with h0 h1
  · injection hr with hr1
    obtain rfl : st = st' := congrArg Prod.fst hr1
    exact h
  · injection hr with hr1
    obtain rfl : updateFromHistory
        { st with history_index := min (st.history.length - 1) (st.history_index + 1) } = st' :=
      congrArg Prod.fst hr1
    apply updateFromHistory_histInv
    obtain ⟨a, c, d, e⟩ := h
    exact ⟨a, c, d,
      show min (st.history.length - 1) (st.history_index + 1) ≤ st.history.length by omega⟩

theorem redo_maxcharInv (st st' : TIState) (b : Bool) (hr : redoOp st = some (st', b))
    (h : maxcharInv st) : maxcharInv st' := by
  unfold redoOp at hr
  split_ifs at hr with h0 h1
  · injection hr with hr1
    obtain rfl : st = st' := congrArg Prod.fst hr1
    exact h
  · injection hr with hr1
    obtain rfl : updateFromHistory
        { st with history_index := min (st.history.length - 1) (st.history_index + 1) } = st' :=
      congrArg Prod.fst hr1
    exact updateFromHistory_maxcharInv _ h

theorem checkInputSize_false {st : TIState} (h : ¬ checkInputSize st = true) :
    0 < st.maxchar → st.input_string.length < st.maxchar := by
  intro hm
  unfold checkInputSize at h
  split_ifs at h with h0
  · omega
  · simp at h
    omega

theorem push_histInv (st : TIState) (c : Char) (h : histInv st) :
    histInv (pushKeyInput st c).1 := by
  have hrs : histInv (if st.selection_surface = true then removeSelection st else st) := by
    split_ifs
    · exact removeSelection_histInv st h
    · exact h
  unfold pushKeyInput
  dsimp only
  generalize hg : (if st.selection_surface = true then removeSelection st else st) = st' at hrs ⊢
  split_ifs with h1 h2 h3 h4
  · exact hrs
  · exact hrs
  · exact hrs
  · have h5 := uis_histInv
      { st' with
        cursor_position := st'.cursor_position + 1
        input_string := st'.input_string.take st'.cursor_position ++ c ::
          st'.input_string.drop st'.cursor_position }
      (st'.input_string.take st'.cursor_position ++ c ::
        st'.input_string.drop st'.cursor_position) true hrs
    exact (histInv_congr (eraseRC_of_updateRenderbox _ 0 1 true false false true)).mpr h5
  · exact hrs

theorem push_maxcharInv (st : TIState) (c : Char) (h : maxcharInv st) :
    maxcharInv (pushKeyInput st c).1 := by
  have hrs : maxcharInv (if st.selection_surface = true then removeSelection st else st) := by
    split_ifs
    · exact removeSelection_maxcharInv st h
    · exact h
  unfold pushKeyInput
  dsimp only
  generalize hg : (if st.selection_surface = true then removeSelection st else st) = st' at hrs ⊢
  split_ifs with h1 h2 h3 h4
  · exact hrs
  · exact hrs
  · exact hrs
  · have hlt := checkInputSize_false h1
    have hlen : 0 < st'.maxchar →
        (st'.input_string.take st'.cursor_position ++ c ::
          st'.input_string.drop st'.cursor_position).length ≤ st'.maxchar := by
      intro hm
      rw [length_insert_new]
      exact hlt hm
    have h5 := uis_maxcharInv
      { st' with
        cursor_position := st'.cursor_position + 1
        input_string := st'.input_string.take st'.cursor_position ++ c ::
          st'.input_string.drop st'.cursor_position }
      (st'.input_string.take st'.cursor_position ++ c ::
        st'.input_string.drop st'.cursor_position) true
      (fun hm => ⟨hlen hm, (hrs hm).2⟩) hlen
    exact (maxcharInv_congr (eraseRC_of_updateRenderbox _ 0 1 true false false true)).mpr h5
  · exact hrs

theorem pyNormIdx_le (n : Nat) (i : Int) : pyNormIdx n i ≤ n := by
  unfold pyNormIdx
  split_ifs <;> omega

theorem pySlice_zero_length (text : List Char) (te : Int) :
    (pySlice text 0 te).length = pyNormIdx text.length te := by
  have h1 : pyNormIdx text.length 0 = 0 := by unfold pyNormIdx; simp
  have h2 := pyNormIdx_le text.length te
  simp [pySlice, h1, List.length_take]
  omega

theorem length_splice (l mid : List Char) (c : Nat) :
    (l.take c ++ mid ++ l.drop c).length = l.length + mid.length := by
  simp [List.length_take, List.length_drop]
  omega

theorem pasteChain_histInv (st : TIState) (n : Nat) (new : List Char) (h : histInv st) :
    histInv { updateMaxlimit (updateInputString
        ((List.range n).foldl (fun s _ => moveCursorRight s) { st with input_string := new })
        new true) with block_copy_paste := true } := by
  have hfold := foldl_eraseRC (f := fun s (_ : Nat) => moveCursorRight s)
    (fun s b => moveCursorRight_erase s) (List.range n) { st with input_string := new }
  have h3 : histInv ((List.range n).foldl (fun s _ => moveCursorRight s)
      { st with input_string := new }) := (histInv_congr hfold).mpr h
  have h4 := uis_histInv _ new true h3
  exact (histInv_congr (eraseRC_of_updateMaxlimit _)).mpr h4

theorem pasteChain_maxcharInv (st : TIState) (n : Nat) (new : List Char) (h : maxcharInv st)
    (hlen : 0 < st.maxchar → new.length ≤ st.maxchar) :
    maxcharInv { updateMaxlimit (updateInputString
        ((List.range n).foldl (fun s _ => moveCursorRight s) { st with input_string := new })
        new true) with block_copy_paste := true } := by
  have hfold := foldl_eraseRC (f := fun s (_ : Nat) => moveCursorRight s)
    (fun s b => moveCursorRight_erase s) (List.range n) { st with input_string := new }
  have h3 : maxcharInv ((List.range n).foldl (fun s _ => moveCursorRight s)
      { st with input_string := new }) :=
    (maxcharInv_congr hfold).mpr (maxcharInv_set_input h hlen)
  have hmc3 : ((List.range n).foldl (fun s _ => moveCursorRight s)
      { st with input_string := new }).maxchar = st.maxchar := by
    have h9 := congrArg TIState.maxchar hfold
    exact h9
  have h4 := uis_maxcharInv _ new true h3 (by rw [hmc3]; exact hlen)
  exact (maxcharInv_congr (eraseRC_of_updateMaxlimit _)).mpr h4

theorem pasteInsert_histInv (st : TIState) (text : List Char) (h : histInv st) :
    histInv (pasteInsert st text).1 := by
  unfold pasteInsert
  dsimp only
  split_ifs <;> first
    | exact h
    | exact pasteChain_histInv st text.length _ h

theorem pasteInsert_maxcharInv (st : TIState) (text : List Char) (h : maxcharInv st) :
    maxcharInv (pasteInsert st text).1 := by
  unfold pasteInsert
  dsimp only
  split_ifs with h1 h2 h3 h4 h5
  · exact h
  · -- commit, active character limit
    apply pasteChain_maxcharInv st text.length _ h
    intro hm
    rw [length_splice, pySlice_zero_length]
    have hb := (h hm).1
    have hgt : ¬ min ((st.maxchar : Int) - st.input_string.length) (text.length : Int) ≤ 0 :=
      fun hc => h2 ⟨h1, hc⟩
    have hnorm : pyNormIdx text.length
        (min ((st.maxchar : Int) - st.input_string.length) (text.length : Int)) ≤
        (min ((st.maxchar : Int) - st.input_string.length) (text.length : Int)).toNat := by
      unfold pyNormIdx
      split_ifs <;> omega
    omega
  · exact h
  · exact h
  · -- commit, no character limit
    apply pasteChain_maxcharInv st text.length _ h
    intro hm
    exact absurd (show st.maxchar ≠ 0 by omega) h1
  · exact h

/-- `_paste` either rejects before touching anything, rejects after the
selection removal, or commits through `pasteInsert` on the post-removal
state. -/
theorem pasteOp_cases (st : TIState) (clip : Option (List Char)) :
    (pasteOp st clip).1 = st ∨
    (pasteOp st clip).1 = (if st.selection_surface = true then removeSelection st else st) ∨
    ∃ t, (pasteOp st clip).1 =
      (pasteInsert (if st.selection_surface = true then removeSelection st else st) t).1 := by
  unfold pasteOp
  dsimp only
  generalize (if st.selection_surface = true then removeSelection st else st) = st'
  split_ifs with h1
  · left; rfl
  · cases clip with
    | none => right; left; rfl
    | some text =>
      dsimp only
      split_ifs with h2
      · right; left; rfl
      · cases hvc : st'.valid_chars with
        | none =>
          simp only [hvc]
          right; right
          exact ⟨pasteFilter text, rfl⟩
        | some vc =>
          simp only [hvc]
          split_ifs with h3
          · right; left; rfl
          · right; right
            exact ⟨_, rfl⟩

theorem paste_histInv (st : TIState) (clip : Option (List Char)) (h : histInv st) :
    histInv (pasteOp st clip).1 := by
  have hrs : histInv (if st.selection_surface = true then removeSelection st else st) := by
    split_ifs
    · exact removeSelection_histInv st h
    · exact h
  rcases pasteOp_cases st clip with hc | hc | ⟨t, hc⟩ <;> rw [hc]
  · exact h
  · exact hrs
  · exact pasteInsert_histInv _ _ hrs

theorem paste_maxcharInv (st : TIState) (clip : Option (List Char)) (h : maxcharInv st) :
    maxcharInv (pasteOp st clip).1 := by
  have hrs : maxcharInv (if st.selection_surface = true then removeSelection st else st) := by
    split_ifs
    · exact removeSelection_maxcharInv st h
    · exact h
  rcases pasteOp_cases st clip with hc | hc | ⟨t, hc⟩ <;> rw [hc]
  · exact h
  · exact hrs
  · exact pasteInsert_maxcharInv _ _ hrs

theorem setValueChain_histInv (st : TIState) (dt : List Char) (h : histInv st) :
    histInv (updateRenderbox (updateInputString
      ((List.range (dt.length + 1)).foldl
        (fun s _ => updateRenderbox (moveCursorRight s) 0 1 true false false true)
        { st with input_string := dt })
      dt true) 0 0 false false false true) := by
  have hfold := foldl_eraseRC
    (f := fun s (_ : Nat) => updateRenderbox (moveCursorRight s) 0 1 true false false true)
    (fun s b => (eraseRC_of_updateRenderbox (moveCursorRight s) 0 1 true false false true).trans
      (moveCursorRight_erase s))
    (List.range (dt.length + 1)) { st with input_string := dt }
  have h3 : histInv ((List.range (dt.length + 1)).foldl
      (fun s _ => updateRenderbox (moveCursorRight s) 0 1 true false false true)
      { st with input_string := dt }) := (histInv_congr hfold).mpr h
  have h4 := uis_histInv _ dt true h3
  exact (histInv_congr (eraseRC_of_updateRenderbox _ 0 0 false false false true)).mpr h4

theorem setValueChain_maxcharInv (st : TIState) (dt : List Char) (h : maxcharInv st)
    (hlen : 0 < st.maxchar → dt.length ≤ st.maxchar) :
    maxcharInv (updateRenderbox (updateInputString
      ((List.range (dt.length + 1)).foldl
        (fun s _ => updateRenderbox (moveCursorRight s) 0 1 true false false true)
        { st with input_string := dt })
      dt true) 0 0 false false false true) := by
  have hfold := foldl_eraseRC
    (f := fun s (_ : Nat) => updateRenderbox (moveCursorRight s) 0 1 true false false true)
    (fun s b => (eraseRC_of_updateRenderbox (moveCursorRight s) 0 1 true false false true).trans
      (moveCursorRight_erase s))
    (List.range (dt.length + 1)) { st with input_string := dt }
  have h3 : maxcharInv ((List.range (dt.length + 1)).foldl
      (fun s _ => updateRenderbox (moveCursorRight s) 0 1 true false false true)
      { st with input_string := dt }) :=
    (maxcharInv_congr hfold).mpr (maxcharInv_set_input h hlen)
  have hmc3 : ((List.range (dt.length + 1)).foldl
      (fun s _ => updateRenderbox (moveCursorRight s) 0 1 true false false true)
      { st with input_string := dt }).maxchar = st.maxchar := by
    have h9 := congrArg TIState.maxchar hfold
    exact h9
  have h4 := uis_maxcharInv _ dt true h3 (by rw [hmc3]; exact hlen)
  exact (maxcharInv_congr (eraseRC_of_updateRenderbox _ 0 0 false false false true)).mpr h4

theorem setValue_histInv (st : TIState) (s : List Char) (st' : TIState)
    (hsv : setValueOp st s = some st') (h : histInv st) : histInv st' := by
  unfold setValueOp at hsv
  split_ifs at hsv with h1 h2
  injection hsv with hv
  subst hv
  exact setValueChain_histInv st _ h

theorem setValue_maxcharInv (st : TIState) (s : List Char) (st' : TIState)
    (hsv : setValueOp st s = some st') (h : maxcharInv st) : maxcharInv st' := by
  unfold setValueOp at hsv
  split_ifs at hsv with h1 h2
  injection hsv with hv
  subst hv
  apply setValueChain_maxcharInv st _ h
  intro hm
  split_ifs with h3
  · simp only [List.length_drop]
    omega
  · push_neg at h3
    have := h3 hm
    omega

theorem cut_histInv (st : TIState) (h : histInv st) : histInv (cutOp st).1 := by
  unfold cutOp copyOp
  dsimp only
  split_ifs <;>
    first
    | exact removeSelection_histInv _ h
    | exact uis_histInv _ [] true h

theorem cut_maxcharInv (st : TIState) (h : maxcharInv st) : maxcharInv (cutOp st).1 := by
  unfold cutOp copyOp
  dsimp only
  split_ifs <;>
    first
    | exact removeSelection_maxcharInv _ h
    | exact uis_maxcharInv _ [] true h (fun hm => by simp)

theorem applyOp_histInv {st st' : TIState} (op : EditOp)
    (ha : applyOp st op = some st') (h : histInv st) : histInv st' := by
  cases op with
  | push c => injection ha with hv; subst hv; exact push_histInv st c h
  | backspace => injection ha with hv; subst hv; exact backspace_histInv st true h
  | delete => injection ha with hv; subst hv; exact delete_histInv st true h
  | paste clip => injection ha with hv; subst hv; exact paste_histInv st clip h
  | setValue s => exact setValue_histInv st s st' ha h
  | undo => injection ha with hv; subst hv; exact undo_histInv st h
  | redo =>
    unfold applyOp at ha
    rcases hr : redoOp st with _ | ⟨st2, b⟩ <;> rw [hr] at ha
    · exact Option.noConfusion ha
    · injection ha with hv
      subst hv
      exact redo_histInv st st2 b hr h
  | cut => injection ha with hv; subst hv; exact cut_histInv st h

theorem applyOp_maxcharInv {st st' : TIState} (op : EditOp)
    (ha : applyOp st op = some st') (h : maxcharInv st) : maxcharInv st' := by
  cases op with
  | push c => injection ha with hv; subst hv; exact push_maxcharInv st c h
  | backspace => injection ha with hv; subst hv; exact backspace_maxcharInv st true h
  | delete => injection ha with hv; subst hv; exact delete_maxcharInv st true h
  | paste clip => injection ha with hv; subst hv; exact paste_maxcharInv st clip h
  | setValue s => exact setValue_maxcharInv st s st' ha h
  | undo => injection ha with hv; subst hv; exact undo_maxcharInv st h
  | redo =>
    unfold applyOp at ha
    rcases hr : redoOp st with _ | ⟨st2, b⟩ <;> rw [hr] at ha
    · exact Option.noConfusion ha
    · injection ha with hv
      subst hv
      exact redo_maxcharInv st st2 b hr h
  | cut => injection ha with hv; subst hv; exact cut_maxcharInv st h

theorem applyOps_maxcharInv :
    ∀ (ops : List EditOp) (st st' : TIState),
      applyOps st ops = some st' → maxcharInv st → maxcharInv st' := by
  intro ops
  induction ops with
  | nil =>
    intro st st' ha h
    injection ha with hv
    subst hv
    exact h
  | cons op rest ih =>
    intro st st' ha h
    unfold applyOps at ha
    rcases h1 : applyOp st op with _ | st1 <;> rw [h1] at ha
    · exact Option.noConfusion ha
    · exact ih st1 st' ha (applyOp_maxcharInv op h1 h)

theorem reachable_histInv {s0 st : TIState} (hr : ReachableFrom s0 st) (h : histInv s0) :
    histInv st := by
  induction hr with
  | refl => exact h
  | step op hreach ha ih => exact applyOp_histInv op ha ih

/-- `_undo` at the tip sentinel decrements the index twice. -/
theorem undo_tip_index (s : TIState) (h1 : s.history_index = s.history.length)
    (h2 : s.history_index ≠ 0) :
    (undoOp s).1.history_index = s.history.length - 2 := by
  unfold undoOp
  rw [if_neg h2]
  dsimp only
  rw [if_pos h1]
  show s.history_index - 1 - 1 = s.history.length - 2
  omega

/-! ## Claim C1: the depth-2 undo/redo scenario -/

/-- A widget as configured in the scenario of C1: no char limit, no width
limit, history depth 2, plain text type. -/
def c1_init : TIState := initState 0 2 0 true 0 0 (fun _ => 1) none .text false '*' 100

def c1_s1 : TIState := (pushKeyInput c1_init 'a').1

def c1_s2 : TIState := (pushKeyInput c1_s1 'b').1

def c1_s3 : TIState := (pushKeyInput c1_s2 'c').1

def c1_u1 : TIState := (undoOp c1_s3).1

def c1_u2 : TIState := (undoOp c1_u1).1

/-- C1 is false on the code: after typing "a","b","c" under depth-2 history
the snapshot "a" has been evicted, so the *second* undo is a boundary no-op
(text stays "ab", not "a"), and the redo that follows yields "abc", not
"ab". -/
theorem c1_counterexample :
    c1_s1.input_string = ['a'] ∧
    c1_s2.input_string = ['a', 'b'] ∧
    c1_s3.input_string = ['a', 'b', 'c'] ∧
    c1_u1.input_string = ['a', 'b'] ∧
    ¬ c1_u2.input_string = ['a'] ∧
    ¬ ((redoOp c1_u2).map (fun p => p.1.input_string) = some ['a', 'b']) := by
  decide

/-- C1 amended: typing "a","b","c" at depth 2 leaves history
`["ab", "abc"]` (the third commit evicts the "a" snapshot); one undo yields
"ab" (the index jumps from the tip sentinel 2 to 0), a second undo is a
boundary no-op returning `False` and leaving "ab", and redo then yields
"abc". -/
theorem c1_amended :
    c1_s1.input_string = ['a'] ∧
    c1_s2.input_string = ['a', 'b'] ∧
    c1_s3.input_string = ['a', 'b', 'c'] ∧
    c1_s3.history = [['a', 'b'], ['a', 'b', 'c']] ∧
    c1_s3.history_index = 2 ∧
    (undoOp c1_s3).2 = true ∧
    c1_u1.input_string = ['a', 'b'] ∧
    c1_u1.history_index = 0 ∧
    (undoOp c1_u1).2 = false ∧
    c1_u2.input_string = ['a', 'b'] ∧
    (redoOp c1_u2).map (fun p => (p.1.input_string, p.2)) = some (['a', 'b', 'c'], true) := by
  decide

/-! ## Claim C3: the max-character bound -/

/-- C3: when the maximum character limit is positive, the length of the
logical text is at most the limit after every sequence of completed edit
operations, starting from any state whose text and history snapshots satisfy
the bound. -/
theorem c3_maxchar_invariant (st : TIState) (ops : List EditOp) (st' : TIState)
    (hstart : maxcharInv st) (hrun : applyOps st ops = some st')
    (hpos : 0 < st'.maxchar) :
    st'.input_string.length ≤ st'.maxchar :=
  (applyOps_maxcharInv ops st st' hrun hstart hpos).1

/-- The `maxchar = 3` scenario state: type "a","b","c","d". -/
def c3_start : TIState := initState 3 50 0 true 0 0 (fun _ => 1) none .text false '*' 100

def c3_ops : List EditOp := [.push 'a', .push 'b', .push 'c', .push 'd']

def c3_end : TIState := (applyOps c3_start c3_ops).getD c3_start

theorem c3_maxchar_invariant_witness :
    c3_end.input_string.length ≤ c3_end.maxchar :=
  c3_maxchar_invariant c3_start c3_ops c3_end
    (fun _ => ⟨by decide, by intro x hx; simp [c3_start, initState] at hx⟩)
    rfl (by decide)

/-! ## Claim C10: history bookkeeping invariants -/

/-- C10: in every state reachable from a fresh widget the three history
lists have equal lengths bounded by the configured depth and
`0 ≤ _history_index ≤ len(_history)` (the lower bound holds by the `Nat`
representation, faithful because every assignment to the index is
non-negative on these runs); moreover any committing edit leaves the index
at `len(_history)` (the tip sentinel), and `_undo` at the tip with a
non-zero index decrements the index twice. -/
theorem c10_history_invariants
    (mc mh : Nat) (mw : Int) (mu : Bool) (ms es : Int) (cw : Char → Int)
    (vc : Option (List Char)) (ty : InputType) (pw : Bool) (pwc : Char) (fuel : Nat)
    (st : TIState)
    (hreach : ReachableFrom (initState mc mh mw mu ms es cw vc ty pw pwc fuel) st) :
    (st.history_cursor.length = st.history.length ∧
     st.history_renderbox.length = st.history.length ∧
     st.history.length ≤ st.max_history ∧
     st.history_index ≤ st.history.length) ∧
    (∀ (s : TIState) (new : List Char), commitCond s new = true →
      (updateInputString s new true).history_index =
        (updateInputString s new true).history.length) ∧
    (∀ s : TIState, s.history_index = s.history.length → s.history_index ≠ 0 →
      (undoOp s).1.history_index = s.history.length - 2) := by
  refine ⟨?_, ?_, ?_⟩
  · exact reachable_histInv hreach ⟨rfl, rfl, Nat.zero_le _, Nat.zero_le _⟩
  · intro s new hcc
    exact uis_commit_index s new hcc
  · intro s h1 h2
    exact undo_tip_index s h1 h2

def c10_init : TIState := initState 0 50 0 true 0 0 (fun _ => 1) none .text false '*' 100

def c10_st : TIState := (pushKeyInput c10_init 'a').1

theorem c10_history_invariants_witness :
    (c10_st.history_cursor.length = c10_st.history.length ∧
     c10_st.history_renderbox.length = c10_st.history.length ∧
     c10_st.history.length ≤ c10_st.max_history ∧
     c10_st.history_index ≤ c10_st.history.length) :=
  (c10_history_invariants 0 50 0 true 0 0 (fun _ => 1) none .text false '*' 100 c10_st
    (ReachableFrom.step (EditOp.push 'a') ReachableFrom.refl rfl)).1

end TextInput

namespace TextInput

/-! ## Claim C4: the paste filter does not delete C0 control characters -/

/-- A fresh unlimited plain-text widget. -/
def c4_state : TIState := initState 0 50 0 true 0 0 (fun _ => 1) none .text false '*' 100

/-- C4 names a code bug: `text.translate(escapes)` with `escapes` a plain
31-character string does not delete the C0 control characters — in Python 3
it remaps `chr(i)` to `escapes[i] = chr(i+1)` for `i ≤ 30` and keeps every
other character (`IndexError` in the table lookup means "keep"), despite the
`# Delete escape chars` comment.  Newlines are removed by the preceding
`replace` calls, so the `"hi\nworld"` scenario still pastes `"hiworld"`,
but a clipboard `"hi\x01world"` pastes `"hi\x02world"`, not `"hiworld"`. -/
theorem c4_paste_translate_bug :
    (pasteOp c4_state (some "hi\x01world".data)).1.input_string = "hi\x02world".data ∧
    (pasteOp c4_state (some "hi\nworld".data)).1.input_string = "hiworld".data ∧
    ¬ "hi\x02world".data = "hiworld".data ∧
    pasteFilter "hi\x01world".data = "hi\x02world".data := by
  decide

/-! ## Claim C5: aborted edits and the pre-validation selection removal -/

/-- Abort shape of `_paste`: any run returning `False` leaves the state at
the pre-removal state (when the copy-paste latch blocked it) or exactly at
the post-selection-removal state. -/
theorem paste_abort (st : TIState) (clip : Option (List Char))
    (hf : (pasteOp st clip).2 = false) :
    (pasteOp st clip).1 =
      if st.block_copy_paste = true then st
      else if st.selection_surface = true then removeSelection st else st := by
  unfold pasteOp at hf ⊢
  dsimp only at hf ⊢
  generalize (if st.selection_surface = true then removeSelection st else st) = st' at hf ⊢
  cases clip with
  | none =>
    split_ifs at hf ⊢ with h1
    · rfl
    · rfl
  | some text =>
    dsimp only at hf ⊢
    split_ifs at hf ⊢ with h1 h2
    · rfl
    · rfl
    · cases hvc : st'.valid_chars with
      | none =>
        simp only [hvc] at hf ⊢
        unfold pasteInsert at hf ⊢
        dsimp only at hf ⊢
        split_ifs at hf ⊢ <;> rfl
      | some vc =>
        simp only [hvc] at hf ⊢
        split_ifs at hf ⊢ with h3
        · rfl
        · unfold pasteInsert at hf ⊢
          dsimp only at hf ⊢
          split_ifs at hf ⊢ <;> rfl

/-- Abort shape of `_push_key_input`: any run returning `False` leaves the
state exactly at the post-selection-removal state. -/
theorem push_abort (st : TIState) (c : Char)
    (hf : (pushKeyInput st c).2 = false) :
    (pushKeyInput st c).1 =
      if st.selection_surface = true then removeSelection st else st := by
  unfold pushKeyInput at hf ⊢
  dsimp only at hf ⊢
  generalize (if st.selection_surface = true then removeSelection st else st) = st' at hf ⊢
  split_ifs at hf ⊢ <;> rfl

/-- C5 amended: an aborted paste or key insert applies no mutation *except*
the removal of an active selection (deleting the selected text, with its
history commit), which `_paste` and `_push_key_input` perform before any
validation.  When no selection is active — or when the copy-paste latch
rejects the paste outright — the state is exactly unchanged. -/
theorem c5_amended (st : TIState) (clip : Option (List Char)) (c : Char) :
    ((pasteOp st clip).2 = false →
      (pasteOp st clip).1 =
        if st.block_copy_paste = true then st
        else if st.selection_surface = true then removeSelection st else st) ∧
    ((pushKeyInput st c).2 = false →
      (pushKeyInput st c).1 =
        if st.selection_surface = true then removeSelection st else st) ∧
    (st.selection_surface = false → (pasteOp st clip).2 = false →
      (pasteOp st clip).1 = st) ∧
    (st.selection_surface = false → (pushKeyInput st c).2 = false →
      (pushKeyInput st c).1 = st) := by
  refine ⟨paste_abort st clip, push_abort st c, ?_, ?_⟩
  · intro hsel hf
    rw [paste_abort st clip hf, hsel]
    simp
  · intro hsel hf
    rw [push_abort st c hf, hsel]
    simp

/-- A state with text `"abc"` and an active selection over `[0, 2)`. -/
def c5_pre : TIState :=
  { input_string := "abc".data
    cursor_position := 0
    renderbox := ⟨0, 0, 0⟩
    maxwidth := 0
    history := ["abc".data]
    history_cursor := [3]
    history_renderbox := [⟨0, 0, 0⟩]
    history_index := 1
    selection_box := (0, 2)
    selection_surface := true
    selection_active := true
    block_copy_paste := false
    maxchar := 0
    max_history := 50
    maxwidth_base := 0
    maxwidth_update := true
    maxwidthsize := 0
    ellipsis_size := 0
    charW := fun _ => 1
    valid_chars := none
    input_type := .text
    password := false
    password_char := '*'
    rebalance_fuel := 100 }

/-- C5 as stated is false on the code: with an active selection, a paste
whose clipboard read raises aborts (returns `False`) yet the selected text
has already been deleted — the text mutates from `"abc"` to `"c"` and the
deletion was committed to history. -/
theorem c5_counterexample :
    (pasteOp c5_pre none).2 = false ∧
    ¬ (pasteOp c5_pre none).1.input_string = c5_pre.input_string ∧
    (pasteOp c5_pre none).1.input_string = ['c'] ∧
    ¬ (pasteOp c5_pre none).1.history = c5_pre.history := by
  decide

def c5_noSel : TIState := { c5_pre with selection_surface := false, selection_active := false }

theorem c5_amended_witness :
    (pasteOp c5_noSel none).1 = c5_noSel ∧ (pushKeyInput c5_noSel '\r').1 = c5_noSel :=
  ⟨(c5_amended c5_noSel none '\r').2.2.1 rfl rfl,
   (c5_amended c5_noSel none '\r').2.2.2 rfl rfl⟩

end TextInput

namespace TextInput

/-- `_update_renderbox` never touches the stored text. -/
theorem updateRenderbox_input (st : TIState) (l r : Int) (a e s u : Bool) :
    (updateRenderbox st l r a e s u).input_string = st.input_string := by
  have h2 := congrArg TIState.input_string (updateRenderbox_erase st l r a e s u)
  exact h2

/-! ## Claim C6: input-type validation -/

/-- C6: the check accepts the empty string, every string under the free-text
type, and the single character `"-"` (for every input type); for the int and
float types and any other string, acceptance coincides exactly with Python
`int()` / `float()` parsing. -/
theorem c6_check_input_type (st : TIState) (s : List Char) :
    ((s = [] ∨ st.input_type = .text ∨ s = ['-']) → checkInputType st s = true) ∧
    (s ≠ [] → s ≠ ['-'] →
      (st.input_type = .int → checkInputType st s = pyParsesInt s) ∧
      (st.input_type = .float → checkInputType st s = pyParsesFloat s)) := by
  constructor
  · intro h
    unfold checkInputType
    split_ifs with a b c
    · rfl
    · rfl
    · rfl
    · rcases h with h | h | h
      · exact absurd h a
      · exact absurd h b
      · exact absurd h c
  · intro h1 h2
    constructor <;> intro ht <;> unfold checkInputType <;> rw [ht] <;> simp [h1, h2]

def c6_float : TIState := initState 0 50 0 true 0 0 (fun _ => 1) none .float false '*' 100

theorem c6_check_input_type_witness :
    checkInputType c6_float ['-'] = true ∧
    checkInputType c6_float "1.5e3".data = pyParsesFloat "1.5e3".data ∧
    checkInputType c6_float ['x'] = pyParsesFloat ['x'] ∧
    checkInputType c6_float "1.5e3".data = true ∧
    checkInputType c6_float ['x'] = false :=
  ⟨(c6_check_input_type c6_float ['-']).1 (Or.inr (Or.inr rfl)),
   ((c6_check_input_type c6_float "1.5e3".data).2 (by decide) (by decide)).2 rfl,
   ((c6_check_input_type c6_float ['x']).2 (by decide) (by decide)).2 rfl,
   by decide, by decide⟩

/-! ## Claim C7: `set_value` -/

/-- C7: `set_value` raises exactly when the widget is a password widget
given non-empty text, or when the type check rejects the (unfiltered) text;
otherwise the stored text becomes the allow-list-filtered text, truncated to
its trailing `maxchar` characters when a positive limit is exceeded. -/
theorem c7_set_value (st : TIState) (text : List Char) :
    (setValueOp st text = none ↔
      (st.password = true ∧ text ≠ []) ∨ checkInputType st text = false) ∧
    (∀ st', setValueOp st text = some st' →
      st'.input_string =
        (let dt := match st.valid_chars with
          | some vc => text.filter (fun c => vc.contains c)
          | none => text
        if 0 < st.maxchar ∧ st.maxchar < dt.length then
          dt.drop (dt.length - st.maxchar) else dt)) := by
  unfold setValueOp
  split_ifs with h1 h2
  · refine ⟨⟨fun _ => Or.inl h1, fun _ => rfl⟩, ?_⟩
    intro st' habs
    exact habs.elim
  · constructor
    · constructor
      · intro habs
        exact absurd habs (by simp)
      · rintro (hp | hc)
        · exact absurd hp h1
        · rw [h2] at hc
          exact Bool.noConfusion hc
    · intro st' hsv
      injection hsv with hv
      subst hv
      rw [updateRenderbox_input, uis_input_string]
  · refine ⟨⟨fun _ => Or.inr (by simpa using h2), fun _ => rfl⟩, ?_⟩
    intro st' habs
    exact habs.elim

end TextInput

namespace TextInput

def c7_int : TIState := initState 0 50 0 true 0 0 (fun _ => 1) none .int false '*' 100

def c7_trunc : TIState := initState 3 50 0 true 0 0 (fun _ => 1) none .text false '*' 100

def c7_result : TIState := (setValueOp c7_trunc "abcde".data).getD c7_trunc

theorem c7_set_value_witness :
    setValueOp c7_int "3.5".data = none ∧
    c7_result.input_string = "cde".data :=
  ⟨(c7_set_value c7_int "3.5".data).1.mpr (Or.inr (by decide)),
   by
    have h := (c7_set_value c7_trunc "abcde".data).2 c7_result rfl
    rw [h]
    decide⟩

/-! ## Claim C8: `get_value` coercion -/

/-- C8: `get_value` returns the raw string for the free-text type; for the
float type it returns the parsed value with the plain integer `0` as the
`ValueError` fallback; for the int type it returns the truncation of the
parsed float with the same `0` fallback (as long as the parse is not an
infinity, in which case Python raises an uncaught `OverflowError`; such a
stored string never passes the int-type check).  In particular a stored
`"-"` under the float type yields `0`.  Numeric values are modelled exactly
over `ℚ`; IEEE-754 rounding is out of scope. -/
theorem c8_get_value (st : TIState) :
    (st.input_type = .text → getValue st = some (.str st.input_string)) ∧
    (st.input_type = .float → getValue st = some (match pyFloatVal st.input_string with
      | some v => .num v
      | none => .intv 0)) ∧
    (st.input_type = .int → (∀ b, pyFloatVal st.input_string ≠ some (.inf b)) →
      getValue st = some (match pyFloatVal st.input_string with
        | some (.rat q) => .intv (ratTrunc q)
        | _ => .intv 0)) ∧
    (st.input_type = .float → st.input_string = ['-'] → getValue st = some (.intv 0)) := by
  refine ⟨?_, ?_, ?_, ?_⟩
  · intro ht
    unfold getValue
    rw [ht]
  · intro ht
    unfold getValue
    rw [ht]
    cases pyFloatVal st.input_string <;> rfl
  · intro ht hninf
    unfold getValue
    rw [ht]
    cases hv : pyFloatVal st.input_string with
    | none => rfl
    | some v =>
      cases v with
      | rat q => rfl
      | nan => rfl
      | inf b => exact absurd hv (hninf b)
  · intro ht hs
    unfold getValue
    rw [ht, hs]
    rfl

def c8_float : TIState :=
  { (initState 0 50 0 true 0 0 (fun _ => 1) none .float false '*' 100) with
    input_string := ['-'] }

/-- A float widget holding `"1.5_0"`: Python `float("1.5_0")` is `1.5`
(underscores separate digits and do not scale the fraction). -/
def c8_us : TIState :=
  { (initState 0 50 0 true 0 0 (fun _ => 1) none .float false '*' 100) with
    input_string := "1.5_0".data }

theorem c8_get_value_witness :
    getValue c8_float = some (.intv 0) ∧
    getValue c8_us = some (.num (.rat (3 / 2))) :=
  ⟨(c8_get_value c8_float).2.2.2 rfl rfl,
   by
    have h := (c8_get_value c8_us).2.1 rfl
    rw [h]
    have hv : pyFloatVal c8_us.input_string =
        some (.rat ((digitsVal ['1'] : ℚ) +
          (digitsVal ['5', '_', '0'] : ℚ) / 10 ^ digitsLen ['5', '_', '0'])) := rfl
    rw [hv]
    have h1 : digitsVal ['1'] = 1 := by decide
    have h2 : digitsVal ['5', '_', '0'] = 50 := by decide
    have h3 : digitsLen ['5', '_', '0'] = 2 := by decide
    rw [h1, h2, h3]
    norm_num⟩

end TextInput

namespace TextInput

/-! ## Claim C2: the viewport invariant -/

/-- The viewport invariant of the spec:
`0 ≤ left ≤ right ≤ len(text)` and `right - left ≤ maxwidth`. -/
def rbInv (st : TIState) : Prop :=
  0 ≤ st.renderbox.l ∧ st.renderbox.l ≤ st.renderbox.r ∧
  st.renderbox.r ≤ (st.input_string.length : Int) ∧
  st.renderbox.r - st.renderbox.l ≤ st.maxwidth

set_option maxHeartbeats 3000000

/-- The pure renderbox update preserves the invariant (for any deltas and
flags) — the rebalancing loop is what can break it. -/
theorem renderboxStep_inv (st : TIState) (left right : Int) (a e s u : Bool)
    (hmw : 0 < st.maxwidth) (h : rbInv st) :
    0 ≤ (renderboxStep st left right a e s u).1.l ∧
    (renderboxStep st left right a e s u).1.l ≤ (renderboxStep st left right a e s u).1.r ∧
    (renderboxStep st left right a e s u).1.r ≤ (st.input_string.length : Int) ∧
    (renderboxStep st left right a e s u).1.r - (renderboxStep st left right a e s u).1.l ≤
      st.maxwidth := by
  obtain ⟨h1, h2, h3, h4⟩ := h
  have hlen : (0 : Int) ≤ st.input_string.length := Int.natCast_nonneg _
  unfold renderboxStep
  dsimp only
  rcases hrb : st.renderbox with ⟨L, R, I⟩
  rw [hrb] at h1 h2 h3 h4
  dsimp only at h1 h2 h3 h4
  generalize hN : (st.input_string.length : Int) = N at h3 hlen ⊢
  generalize hM : st.maxwidth = M at hmw h4 ⊢
  by_cases he : e = true
  · simp only [if_pos he]
    omega
  · simp only [if_neg he]
    by_cases hs : s = true
    · simp only [if_pos hs]
      omega
    · simp only [if_neg hs]
      by_cases h0 : left < 0 ∧ N = 0
      · simp only [if_pos h0]
        omega
      · simp only [if_neg h0]
        by_cases hov : N ≤ M
        · simp only [if_pos hov]
          split_ifs <;> (try dsimp only) <;> omega
        · simp only [if_neg hov]
          by_cases ha : a = true
          · simp only [if_pos ha]
            split_ifs <;> (try dsimp only) <;> omega
          · simp only [if_neg ha]
            split_ifs <;> (try dsimp only) <;> omega

set_option maxHeartbeats 200000

/-- `_update_maxlimit_renderbox` is a no-op when dynamic updating is off. -/
theorem updateMaxlimit_off (st : TIState) (h : st.maxwidth_update = false) :
    updateMaxlimit st = st := by
  unfold updateMaxlimit
  rw [if_pos]
  simp [h]

/-- C2 amended: for every state with an active width limit satisfying the
viewport invariant, the renderbox update preserves the invariant for any
combination of left/right deltas, addition, start and end flags — provided
the soft-limit rebalancing loop does not run (`maxwidth_dynamically_update`
off).  The rebalancing loop itself can break `left ≤ right` (see the
counterexample). -/
theorem c2_amended (st : TIState) (left right : Int) (a e s u : Bool)
    (hmw : 0 < st.maxwidth) (hnu : st.maxwidth_update = false) (h : rbInv st) :
    rbInv (updateRenderbox st left right a e s u) := by
  unfold updateRenderbox
  rw [if_neg (by omega : ¬ st.maxwidth = 0)]
  dsimp only
  have hstep := renderboxStep_inv st left right a e s u hmw h
  split_ifs with hp
  · have hoff := updateMaxlimit_off
      { st with renderbox := (renderboxStep st left right a e s u).1 } (by exact hnu)
    rw [hoff]
    exact hstep
  · exact hstep

/-- The state of the C2 counterexample: text `"abcde"`, `maxwidth = 1`
(base 1), renderbox `[1, 2, 1]`, each glyph 10 px wide against an 5 px
budget, dynamic updating on. -/
def c2_pre : TIState :=
  { input_string := "abcde".data
    cursor_position := 3
    renderbox := ⟨1, 2, 1⟩
    maxwidth := 1
    history := []
    history_cursor := []
    history_renderbox := []
    history_index := 0
    selection_box := (0, 0)
    selection_surface := false
    selection_active := false
    block_copy_paste := false
    maxchar := 0
    max_history := 50
    maxwidth_base := 1
    maxwidth_update := true
    maxwidthsize := 5
    ellipsis_size := 0
    charW := fun _ => 10
    valid_chars := none
    input_type := .text
    password := false
    password_char := '*'
    rebalance_fuel := 100 }

/-- C2 as stated is false on the code: starting from a state satisfying the
invariant with `maxwidth = 1 > 0`, a backspace-shaped renderbox update
(`left = -1, addition`) drives the rebalancing loop to shrink `maxwidth`
through zero, after which the full string becomes the measured slice and the
loop decrements `right` below `left` before the empty-slice reset breaks it:
the final renderbox is `[1, 0, 0]`, violating `left ≤ right`.  (The run
exits the loop via its `break` after three iterations, far below the
modelled fuel.) -/
theorem c2_counterexample :
    (0 < c2_pre.maxwidth ∧ 0 ≤ c2_pre.renderbox.l ∧
      c2_pre.renderbox.l ≤ c2_pre.renderbox.r ∧
      c2_pre.renderbox.r ≤ (c2_pre.input_string.length : Int) ∧
      c2_pre.renderbox.r - c2_pre.renderbox.l ≤ c2_pre.maxwidth) ∧
    (updateRenderbox c2_pre (-1) 0 true false false true).renderbox = ⟨1, 0, 0⟩ ∧
    ¬ ((updateRenderbox c2_pre (-1) 0 true false false true).renderbox.l ≤
        (updateRenderbox c2_pre (-1) 0 true false false true).renderbox.r) := by
  decide

def c2_off : TIState := { c2_pre with maxwidth_update := false }

theorem c2_amended_witness : rbInv (updateRenderbox c2_off (-1) 0 true false false true) :=
  c2_amended c2_off (-1) 0 true false false true (by decide) rfl
    ⟨by decide, by decide, by decide, by decide⟩

end TextInput

namespace TextInput

/-! ## Claim C9: cut -/

theorem uis_false (st : TIState) (new : List Char) :
    updateInputString st new false = { st with input_string := new } := by
  unfold updateInputString
  simp

theorem uis_cursor (st : TIState) (new : List Char) (uh : Bool) :
    (updateInputString st new uh).cursor_position = st.cursor_position := by
  unfold updateInputString uisBranch historyAppend
  dsimp only
  split_ifs <;> rfl

theorem updateRenderbox_history (st : TIState) (l r : Int) (a e s u : Bool) :
    (updateRenderbox st l r a e s u).history = st.history := by
  have h2 := congrArg TIState.history (updateRenderbox_erase st l r a e s u)
  exact h2

theorem updateRenderbox_cursor2 (st : TIState) (l r : Int) (a e s u : Bool) :
    (updateRenderbox st l r a e s u).cursor_position = st.cursor_position := by
  have h2 := congrArg TIState.cursor_position (updateRenderbox_erase st l r a e s u)
  exact h2

theorem eraseRender_fields {a b : TIState} (h : eraseRender a = eraseRender b) :
    a.input_string = b.input_string ∧ a.cursor_position = b.cursor_position ∧
    a.history = b.history ∧ a.history_index = b.history_index ∧
    a.max_history = b.max_history := by
  refine ⟨?_, ?_, ?_, ?_, ?_⟩
  · have h2 := congrArg TIState.input_string h; exact h2
  · have h2 := congrArg TIState.cursor_position h; exact h2
  · have h2 := congrArg TIState.history h; exact h2
  · have h2 := congrArg TIState.history_index h; exact h2
  · have h2 := congrArg TIState.max_history h; exact h2

theorem erase_set_input {a b : TIState} (h : eraseRender a = eraseRender b) (v : List Char) :
    eraseRender { a with input_string := v } = eraseRender { b with input_string := v } := by
  have h2 := congrArg (fun x => eraseRender { x with input_string := v }) h
  exact h2

theorem erase_set_input_cur {a b : TIState} (h : eraseRender a = eraseRender b)
    (v : List Char) (w : Nat) :
    eraseRender { a with input_string := v, cursor_position := w } =
      eraseRender { b with input_string := v, cursor_position := w } := by
  have h2 := congrArg (fun x => eraseRender { x with input_string := v, cursor_position := w }) h
  exact h2

theorem deleteOp_false_erase (s : TIState) :
    eraseRender (deleteOp s false) =
      eraseRender { s with input_string := s.input_string.take s.cursor_position ++
        s.input_string.drop (s.cursor_position + 1) } := by
  unfold deleteOp
  dsimp only
  rw [uis_false]
  exact updateRenderbox_erase _ 0 (-1) true false false true

theorem backspaceOp_false_erase (s : TIState) :
    eraseRender (backspaceOp s false) =
      eraseRender { s with
        input_string := s.input_string.take (s.cursor_position - 1) ++
          s.input_string.drop s.cursor_position
        cursor_position := s.cursor_position - 1 } := by
  unfold backspaceOp
  dsimp only
  rw [uis_false]
  have h2 := congrArg (fun x => eraseRender { x with cursor_position := x.cursor_position - 1 })
    (updateRenderbox_erase
      { s with input_string := s.input_string.take (s.cursor_position - 1) ++
          s.input_string.drop s.cursor_position } (-1) 0 true false false true)
  exact h2

theorem splice_delete (l : List Char) (c k : Nat) (hc : c + k ≤ l.length) :
    (l.take c ++ l.drop (c + k)).take c ++ (l.take c ++ l.drop (c + k)).drop (c + 1) =
      l.take c ++ l.drop (c + k + 1) := by
  have hlc : (l.take c).length = c := by rw [List.length_take]; omega
  have h1 : (l.take c ++ l.drop (c + k)).take c = l.take c := by
    rw [List.take_append_of_le_length (by omega), List.take_take, min_self]
  have h2 : (l.take c ++ l.drop (c + k)).drop (c + 1) = l.drop (c + k + 1) := by
    have he : c + 1 = (l.take c).length + 1 := by omega
    rw [he, List.drop_append 1, List.drop_drop]
  rw [h1, h2]

theorem splice_backspace (l : List Char) (c k : Nat) (hk : k < c) (hc : c ≤ l.length) :
    (l.take (c - k) ++ l.drop c).take (c - k - 1) ++ (l.take (c - k) ++ l.drop c).drop (c - k) =
      l.take (c - k - 1) ++ l.drop c := by
  have hlc : (l.take (c - k)).length = c - k := by rw [List.length_take]; omega
  have h1 : (l.take (c - k) ++ l.drop c).take (c - k - 1) = l.take (c - k - 1) := by
    rw [List.take_append_of_le_length (by omega), List.take_take, min_eq_left (by omega)]
  have h2 : (l.take (c - k) ++ l.drop c).drop (c - k) = l.drop c := by
    generalize hA : l.take (c - k) = A
    rw [hA] at hlc
    rw [← hlc, List.drop_left]
  rw [h1, h2]

theorem delete_run (k : Nat) (s : TIState)
    (hck : s.cursor_position + k ≤ s.input_string.length) :
    eraseRender ((List.range k).foldl (fun x _ => deleteOp x false) s) =
      eraseRender { s with input_string :=
        s.input_string.take s.cursor_position ++
          s.input_string.drop (s.cursor_position + k) } := by
  induction k with
  | zero =>
    simp only [List.range_zero, List.foldl_nil, Nat.add_zero, List.take_append_drop]
  | succ n ih =>
    have ih2 := ih (by omega)
    rw [List.range_succ, List.foldl_append, List.foldl_cons, List.foldl_nil]
    obtain ⟨hinp, hcur, _, _, _⟩ := eraseRender_fields ih2
    calc eraseRender (deleteOp ((List.range n).foldl (fun x _ => deleteOp x false) s) false)
        = eraseRender { (List.range n).foldl (fun x _ => deleteOp x false) s with
            input_string :=
              ((List.range n).foldl (fun x _ => deleteOp x false) s).input_string.take
                ((List.range n).foldl (fun x _ => deleteOp x false) s).cursor_position ++
              ((List.range n).foldl (fun x _ => deleteOp x false) s).input_string.drop
                (((List.range n).foldl (fun x _ => deleteOp x false) s).cursor_position + 1) } :=
          deleteOp_false_erase _
      _ = eraseRender { { s with input_string :=
              s.input_string.take s.cursor_position ++
                s.input_string.drop (s.cursor_position + n) } with
            input_string :=
              ((List.range n).foldl (fun x _ => deleteOp x false) s).input_string.take
                ((List.range n).foldl (fun x _ => deleteOp x false) s).cursor_position ++
              ((List.range n).foldl (fun x _ => deleteOp x false) s).input_string.drop
                (((List.range n).foldl (fun x _ => deleteOp x false) s).cursor_position + 1) } :=
          erase_set_input ih2 _
      _ = eraseRender { s with input_string :=
            s.input_string.take s.cursor_position ++
              s.input_string.drop (s.cursor_position + (n + 1)) } := by
          rw [hinp, hcur]
          dsimp only
          rw [splice_delete s.input_string s.cursor_position n (by omega), ← Nat.add_assoc]

theorem backspace_run (k : Nat) (s : TIState)
    (hk : k ≤ s.cursor_position) (hc : s.cursor_position ≤ s.input_string.length) :
    eraseRender ((List.range k).foldl (fun x _ => backspaceOp x false) s) =
      eraseRender { s with
        input_string := s.input_string.take (s.cursor_position - k) ++
          s.input_string.drop s.cursor_position
        cursor_position := s.cursor_position - k } := by
  induction k with
  | zero =>
    simp only [List.range_zero, List.foldl_nil, Nat.sub_zero, List.take_append_drop]
  | succ n ih =>
    have ih2 := ih (by omega)
    rw [List.range_succ, List.foldl_append, List.foldl_cons, List.foldl_nil]
    obtain ⟨hinp, hcur, _, _, _⟩ := eraseRender_fields ih2
    calc eraseRender (backspaceOp ((List.range n).foldl (fun x _ => backspaceOp x false) s) false)
        = eraseRender { (List.range n).foldl (fun x _ => backspaceOp x false) s with
            input_string :=
              ((List.range n).foldl (fun x _ => backspaceOp x false) s).input_string.take
                (((List.range n).foldl (fun x _ => backspaceOp x false) s).cursor_position - 1) ++
              ((List.range n).foldl (fun x _ => backspaceOp x false) s).input_string.drop
                ((List.range n).foldl (fun x _ => backspaceOp x false) s).cursor_position
            cursor_position :=
              ((List.range n).foldl (fun x _ => backspaceOp x false) s).cursor_position - 1 } :=
          backspaceOp_false_erase _
      _ = eraseRender { { s with
            input_string := s.input_string.take (s.cursor_position - n) ++
              s.input_string.drop s.cursor_position
            cursor_position := s.cursor_position - n } with
            input_string :=
              ((List.range n).foldl (fun x _ => backspaceOp x false) s).input_string.take
                (((List.range n).foldl (fun x _ => backspaceOp x false) s).cursor_position - 1) ++
              ((List.range n).foldl (fun x _ => backspaceOp x false) s).input_string.drop
                ((List.range n).foldl (fun x _ => backspaceOp x false) s).cursor_position
            cursor_position :=
              ((List.range n).foldl (fun x _ => backspaceOp x false) s).cursor_position - 1 } :=
          erase_set_input_cur ih2 _ _
      _ = eraseRender { s with
            input_string := s.input_string.take (s.cursor_position - (n + 1)) ++
              s.input_string.drop s.cursor_position
            cursor_position := s.cursor_position - (n + 1) } := by
          rw [hinp, hcur]
          dsimp only
          rw [splice_backspace s.input_string s.cursor_position n (by omega) hc, Nat.sub_sub]

end TextInput

namespace TextInput

theorem unselect_fields (x : TIState) :
    (unselectText x).input_string = x.input_string ∧
    (unselectText x).cursor_position = x.cursor_position ∧
    (unselectText x).history = x.history := by
  unfold unselectText
  split_ifs <;> exact ⟨rfl, rfl, rfl⟩

theorem uis_renderbox (st : TIState) (new : List Char) (uh : Bool) :
    (updateInputString st new uh).renderbox = st.renderbox := by
  unfold updateInputString uisBranch historyAppend
  dsimp only
  split_ifs <;> rfl

/-- A committing `_update_input_string` at the tip appends the snapshot and
evicts the oldest entry when over capacity. -/
theorem uis_tip (st : TIState) (new : List Char)
    (hidx : st.history_index = st.history.length) (hcc : commitCond st new = true) :
    (updateInputString st new true).input_string = new ∧
    (updateInputString st new true).cursor_position = st.cursor_position ∧
    (updateInputString st new true).history =
      (if st.history.length + 1 > st.max_history then (st.history ++ [new]).drop 1
       else st.history ++ [new]) := by
  refine ⟨uis_input_string _ _ _, uis_cursor _ _ _, ?_⟩
  unfold updateInputString
  rw [if_pos (by simp [hcc])]
  have hb : uisBranch st = st := by
    unfold uisBranch
    rw [if_neg (fun hne => hne hidx)]
  rw [hb]
  show (historyAppend st new).history = _
  unfold historyAppend
  dsimp only
  rw [hidx, pyInsert_at_len]
  simp only [List.length_append, List.length_cons, List.length_nil, Nat.add_zero]

theorem deleteOp_true_fields (Y : TIState) (hidx : Y.history_index = Y.history.length)
    (hcc : commitCond Y (Y.input_string.take Y.cursor_position ++
      Y.input_string.drop (Y.cursor_position + 1)) = true) :
    (deleteOp Y true).input_string =
      Y.input_string.take Y.cursor_position ++ Y.input_string.drop (Y.cursor_position + 1) ∧
    (deleteOp Y true).cursor_position = Y.cursor_position ∧
    (deleteOp Y true).history =
      (if Y.history.length + 1 > Y.max_history
       then (Y.history ++ [Y.input_string.take Y.cursor_position ++
          Y.input_string.drop (Y.cursor_position + 1)]).drop 1
       else Y.history ++ [Y.input_string.take Y.cursor_position ++
          Y.input_string.drop (Y.cursor_position + 1)]) := by
  obtain ⟨h1, h2, h3⟩ := uis_tip Y _ hidx hcc
  unfold deleteOp
  dsimp only
  refine ⟨?_, ?_, ?_⟩
  · rw [updateRenderbox_input, h1]
  · rw [updateRenderbox_cursor2, h2]
  · rw [updateRenderbox_history, h3]

theorem backspaceOp_true_fields (Y : TIState) (hidx : Y.history_index = Y.history.length)
    (hcc : commitCond Y (Y.input_string.take (Y.cursor_position - 1) ++
      Y.input_string.drop Y.cursor_position) = true) :
    (backspaceOp Y true).input_string =
      Y.input_string.take (Y.cursor_position - 1) ++ Y.input_string.drop Y.cursor_position ∧
    (backspaceOp Y true).cursor_position = Y.cursor_position - 1 ∧
    (backspaceOp Y true).history =
      (if Y.history.length + 1 > Y.max_history
       then (Y.history ++ [Y.input_string.take (Y.cursor_position - 1) ++
          Y.input_string.drop Y.cursor_position]).drop 1
       else Y.history ++ [Y.input_string.take (Y.cursor_position - 1) ++
          Y.input_string.drop Y.cursor_position]) := by
  obtain ⟨h1, h2, h3⟩ := uis_tip Y _ hidx hcc
  unfold backspaceOp
  dsimp only
  refine ⟨?_, ?_, ?_⟩
  · rw [updateRenderbox_input, h1]
  · rw [updateRenderbox_cursor2, h2]
  · rw [updateRenderbox_history, h3]

theorem foldl_congr_mem {α : Type} (l : List α) (f g : TIState → α → TIState)
    (h : ∀ b ∈ l, ∀ x, f x b = g x b) :
    ∀ s : TIState, l.foldl f s = l.foldl g s := by
  induction l with
  | nil => intro s; rfl
  | cons a t ih =>
    intro s
    rw [List.foldl_cons, List.foldl_cons, h a (List.mem_cons_self a t)]
    exact ih (fun b hb x => h b (List.mem_cons_of_mem a hb) x) _

end TextInput

namespace TextInput

/-- The capacity-capped history append performed by a committing edit. -/
def cappedAppend (h : List (List Char)) (m : Nat) (x : List Char) : List (List Char) :=
  if h.length + 1 > m then (h ++ [x]).drop 1 else h ++ [x]

/-- `_remove_selection` on a well-formed selection `[f, t)` with the cursor
at either end and the history at its tip: the selected range is removed, the
cursor lands on `f`, and exactly one snapshot (the final string) is
committed. -/
theorem removeSelection_spec (s : TIState) (f t : Nat)
    (hsb : s.selection_box = (f, t)) (hlt : f < t) (hle : t ≤ s.input_string.length)
    (hcur : s.cursor_position = f ∨ s.cursor_position = t)
    (hidx : s.history_index = s.history.length)
    (hlast : s.history.getLast? = some s.input_string)
    (hmh : 0 < s.max_history) :
    (removeSelection s).input_string = s.input_string.take f ++ s.input_string.drop t ∧
    (removeSelection s).cursor_position = f ∧
    (removeSelection s).history =
      cappedAppend s.history s.max_history
        (s.input_string.take f ++ s.input_string.drop t) := by
  have hne : s.history ≠ [] := by
    intro he
    rw [he] at hlast
    simp at hlast
  have hneq : s.history.getLast? ≠ some (s.input_string.take f ++ s.input_string.drop t) := by
    rw [hlast]
    intro hc
    have hlen := congrArg List.length (Option.some.inj hc)
    simp only [List.length_append, List.length_take, List.length_drop] at hlen
    omega
  obtain ⟨n, hn⟩ : ∃ n, t - f = n + 1 := ⟨t - f - 1, by omega⟩
  unfold removeSelection
  rw [hsb]
  dsimp only
  rcases hcur with hcf | hct
  · -- cursor at the left end: repeated delete
    simp only [if_pos (hcf.symm : f = s.cursor_position)]
    rw [hn, List.range_succ, List.foldl_append, List.foldl_cons, List.foldl_nil]
    rw [foldl_congr_mem (List.range n) _ (fun x _ => deleteOp x false) (by
      intro b hb x
      have hbn : b < n := List.mem_range.mp hb
      have hd : (decide (b = n + 1 - 1)) = false := by
        simp only [decide_eq_false_iff_not]
        omega
      rw [hd])]
    have hdec : (decide (n = n + 1 - 1)) = true := by simp
    rw [hdec]
    have hY := delete_run n s (by omega)
    obtain ⟨hYi, hYc, hYh, hYidx, hYm⟩ := eraseRender_fields hY
    have hYi' : ((List.range n).foldl (fun x _ => deleteOp x false) s).input_string =
        s.input_string.take f ++ s.input_string.drop (f + n) :=
      hYi.trans (by
        show s.input_string.take s.cursor_position ++
            s.input_string.drop (s.cursor_position + n) =
          s.input_string.take f ++ s.input_string.drop (f + n)
        rw [hcf])
    have hYc' : ((List.range n).foldl (fun x _ => deleteOp x false) s).cursor_position = f :=
      hYc.trans hcf
    have hYh' : ((List.range n).foldl (fun x _ => deleteOp x false) s).history = s.history := hYh
    have hYm' : ((List.range n).foldl (fun x _ => deleteOp x false) s).max_history =
        s.max_history := hYm
    have hft : f + n + 1 = t := by omega
    have hnew : ((List.range n).foldl (fun x _ => deleteOp x false) s).input_string.take
          ((List.range n).foldl (fun x _ => deleteOp x false) s).cursor_position ++
        ((List.range n).foldl (fun x _ => deleteOp x false) s).input_string.drop
          (((List.range n).foldl (fun x _ => deleteOp x false) s).cursor_position + 1) =
        s.input_string.take f ++ s.input_string.drop t := by
      rw [hYi', hYc', splice_delete s.input_string f n (by omega), hft]
    have hidx2 : ((List.range n).foldl (fun x _ => deleteOp x false) s).history_index =
        ((List.range n).foldl (fun x _ => deleteOp x false) s).history.length := by
      rw [hYh']
      exact hYidx.trans hidx
    have hcc : commitCond ((List.range n).foldl (fun x _ => deleteOp x false) s)
        (((List.range n).foldl (fun x _ => deleteOp x false) s).input_string.take
          ((List.range n).foldl (fun x _ => deleteOp x false) s).cursor_position ++
        ((List.range n).foldl (fun x _ => deleteOp x false) s).input_string.drop
          (((List.range n).foldl (fun x _ => deleteOp x false) s).cursor_position + 1)) = true := by
      rw [hnew]
      unfold commitCond
      rw [hYh', hYm']
      simp [hne, hneq, hmh]
    obtain ⟨hf1, hf2, hf3⟩ := deleteOp_true_fields _ hidx2 hcc
    refine ⟨?_, ?_, ?_⟩
    · rw [(unselect_fields _).1, hf1, hnew]
    · rw [(unselect_fields _).2.1, hf2, hYc']
    · rw [(unselect_fields _).2.2, hf3, hYh', hYm', hnew]
      rfl
  · -- cursor at the right end: repeated backspace
    simp only [if_neg (show ¬ f = s.cursor_position by omega)]
    rw [hn, List.range_succ, List.foldl_append, List.foldl_cons, List.foldl_nil]
    rw [foldl_congr_mem (List.range n) _ (fun x _ => backspaceOp x false) (by
      intro b hb x
      have hbn : b < n := List.mem_range.mp hb
      have hd : (decide (b = n + 1 - 1)) = false := by
        simp only [decide_eq_false_iff_not]
        omega
      rw [hd])]
    have hdec : (decide (n = n + 1 - 1)) = true := by simp
    rw [hdec]
    have hY := backspace_run n s (by omega) (by omega)
    obtain ⟨hYi, hYc, hYh, hYidx, hYm⟩ := eraseRender_fields hY
    have htn : s.cursor_position - n = f + 1 := by omega
    have hYi' : ((List.range n).foldl (fun x _ => backspaceOp x false) s).input_string =
        s.input_string.take (f + 1) ++ s.input_string.drop t :=
      hYi.trans (by
        show s.input_string.take (s.cursor_position - n) ++
            s.input_string.drop s.cursor_position =
          s.input_string.take (f + 1) ++ s.input_string.drop t
        rw [htn, hct])
    have hYc' : ((List.range n).foldl (fun x _ => backspaceOp x false) s).cursor_position =
        f + 1 :=
      hYc.trans htn
    have hYh' : ((List.range n).foldl (fun x _ => backspaceOp x false) s).history =
        s.history := hYh
    have hYm' : ((List.range n).foldl (fun x _ => backspaceOp x false) s).max_history =
        s.max_history := hYm
    have hnew : ((List.range n).foldl (fun x _ => backspaceOp x false) s).input_string.take
          (((List.range n).foldl (fun x _ => backspaceOp x false) s).cursor_position - 1) ++
        ((List.range n).foldl (fun x _ => backspaceOp x false) s).input_string.drop
          ((List.range n).foldl (fun x _ => backspaceOp x false) s).cursor_position =
        s.input_string.take f ++ s.input_string.drop t := by
      rw [hYi', hYc']
      have hsp := splice_backspace s.input_string t n (by omega) hle
      have htn2 : t - n = f + 1 := by omega
      rw [htn2] at hsp
      have hff : f + 1 - 1 = f := by omega
      rw [hff] at hsp
      exact hsp
    have hidx2 : ((List.range n).foldl (fun x _ => backspaceOp x false) s).history_index =
        ((List.range n).foldl (fun x _ => backspaceOp x false) s).history.length := by
      rw [hYh']
      exact hYidx.trans hidx
    have hcc : commitCond ((List.range n).foldl (fun x _ => backspaceOp x false) s)
        (((List.range n).foldl (fun x _ => backspaceOp x false) s).input_string.take
          (((List.range n).foldl (fun x _ => backspaceOp x false) s).cursor_position - 1) ++
        ((List.range n).foldl (fun x _ => backspaceOp x false) s).input_string.drop
          ((List.range n).foldl (fun x _ => backspaceOp x false) s).cursor_position) = true := by
      rw [hnew]
      unfold commitCond
      rw [hYh', hYm']
      simp [hne, hneq, hmh]
    obtain ⟨hf1, hf2, hf3⟩ := backspaceOp_true_fields _ hidx2 hcc
    refine ⟨?_, ?_, ?_⟩
    · rw [(unselect_fields _).1, hf1, hnew]
    · rw [(unselect_fields _).2.1, hf2, hYc']
      omega
    · rw [(unselect_fields _).2.2, hf3, hYh', hYm', hnew]
      rfl

end TextInput

namespace TextInput

theorem copyOp_cases (st : TIState) :
    (copyOp st).1 = st ∨ (copyOp st).1 = { st with block_copy_paste := true } := by
  unfold copyOp
  split_ifs
  · left; rfl
  · left; rfl
  · right; rfl

/-- C9: `_cut` with no active selection clears the whole text (cursor 0,
renderbox reset); with an active selection `[f, t)` (cursor at either end,
history at its tip, tip snapshot holding the current text, positive
capacity) it removes exactly that range, lands the cursor on `f`, and
records the removal as a single history commit (a capacity-capped append of
the resulting string). -/
theorem c9_cut_spec (st : TIState) :
    (st.selection_surface = false →
      ((cutOp st).1.input_string = [] ∧
       (cutOp st).1.cursor_position = 0 ∧
       (cutOp st).1.renderbox = ⟨0, 0, 0⟩ ∧
       (cutOp st).2 = false)) ∧
    (∀ f t : Nat, st.selection_surface = true → st.selection_box = (f, t) →
      f < t → t ≤ st.input_string.length →
      (st.cursor_position = f ∨ st.cursor_position = t) →
      st.history_index = st.history.length →
      st.history.getLast? = some st.input_string →
      0 < st.max_history →
      ((cutOp st).1.input_string = st.input_string.take f ++ st.input_string.drop t ∧
       (cutOp st).1.cursor_position = f ∧
       (cutOp st).1.history = cappedAppend st.history st.max_history
         (st.input_string.take f ++ st.input_string.drop t) ∧
       (cutOp st).2 = true)) := by
  constructor
  · intro hsel
    unfold cutOp
    dsimp only
    rcases copyOp_cases st with hc | hc <;> rw [hc] <;> split_ifs with hss
    · simp [hsel] at hss
    · dsimp only
      refine ⟨uis_input_string _ _ _, ?_, ?_, rfl⟩
      · rw [uis_cursor]
      · rw [uis_renderbox]
    · simp [hsel] at hss
    · dsimp only
      refine ⟨uis_input_string _ _ _, ?_, ?_, rfl⟩
      · rw [uis_cursor]
      · rw [uis_renderbox]
  · intro f t hsel hsb hlt hle hcur hidx hlast hmh
    unfold cutOp
    dsimp only
    rcases copyOp_cases st with hc | hc
    · rw [hc]
      split_ifs
      obtain ⟨r1, r2, r3⟩ := removeSelection_spec st f t hsb hlt hle hcur hidx hlast hmh
      exact ⟨r1, r2, r3, rfl⟩
    · rw [hc]
      split_ifs with hss
      · obtain ⟨r1, r2, r3⟩ := removeSelection_spec { st with block_copy_paste := true } f t
          hsb hlt hle hcur hidx hlast hmh
        exact ⟨r1, r2, r3, rfl⟩
      · exact absurd hsel hss

/-- A concrete cut: "abcde", selection `[1, 3)`, cursor at 1. -/
def c9_state : TIState :=
  { input_string := "abcde".data
    cursor_position := 1
    renderbox := ⟨0, 0, 0⟩
    maxwidth := 0
    history := ["abcde".data]
    history_cursor := [5]
    history_renderbox := [⟨0, 0, 0⟩]
    history_index := 1
    selection_box := (1, 3)
    selection_surface := true
    selection_active := true
    block_copy_paste := false
    maxchar := 0
    max_history := 50
    maxwidth_base := 0
    maxwidth_update := true
    maxwidthsize := 0
    ellipsis_size := 0
    charW := fun _ => 1
    valid_chars := none
    input_type := .text
    password := false
    password_char := '*'
    rebalance_fuel := 100 }

theorem c9_cut_spec_witness :
    (cutOp c9_state).1.input_string = "ade".data ∧
    (cutOp c9_state).1.cursor_position = 1 ∧
    (cutOp c9_state).1.history = ["abcde".data, "ade".data] := by
  obtain ⟨h1, h2, h3, _⟩ := (c9_cut_spec c9_state).2 1 3 rfl rfl (by decide) (by decide)
    (Or.inl rfl) rfl rfl (by decide)
  exact ⟨h1, h2, by rw [h3]; decide⟩

end TextInput
